import Mathlib

/-!
# Krypper L1 Core — verification of the execution core

Shallow embedding of the Krypper chain core (package `types`): accounts,
SHA-256 hashing, the state store with snapshots, the transaction executor,
the mempool, block validation and the chain manager.  The repository ships
several duplicated variants of some modules; where two variants are needed
they are embedded side by side under distinct namespaces, each doc comment
naming its source file and lines.

Machine integers are modelled as `Nat`/`Int` with explicit truncation where
Go wraps; `big.Int` fields are `Int`; fallible operations return
`Except String` carrying the source error strings; Go maps are association
lists with overwrite-on-insert semantics.
-/

set_option maxRecDepth 100000

deriving instance DecidableEq for Except

namespace Krypper

/-- A byte (0–255 in all reachable values). -/
abbrev Byte := Nat

/-- A byte string. -/
abbrev Bytes := List Nat

/-- A 32-byte hash (src/types/types.go `Hash`), as its byte list. -/
abbrev Hash := List Nat

/-- A 20-byte address (src/types/account.go `Address`), as its byte list. -/
abbrev Address := List Nat

/-- Source `ZeroHash()` — the all-zero 32-byte hash. -/
def ZeroHash : Hash := List.replicate 32 0

/-- The all-zero 20-byte address. -/
def zeroAddress : Address := List.replicate 20 0

/-- Source `Address.IsZero` (src/types/types.go). -/
def Address.IsZero (a : Address) : Bool := a = zeroAddress

/-! ## Association lists standing for Go maps -/

/-- Go map read: first matching key, if any. -/
def alookup {α β : Type} [DecidableEq α] (k : α) : List (α × β) → Option β
  | [] => none
  | (k', v) :: rest => if k = k' then some v else alookup k rest

/-- Go map write: overwrite in place, or append a fresh entry.  Keeps keys
unique, matching a Go map. -/
def aset {α β : Type} [DecidableEq α] (k : α) (v : β) : List (α × β) → List (α × β)
  | [] => [(k, v)]
  | (k', v') :: rest => if k = k' then (k, v) :: rest else (k', v') :: aset k v rest

/-- Go map delete. -/
def adel {α β : Type} [DecidableEq α] (k : α) : List (α × β) → List (α × β)
  | [] => []
  | (k', v') :: rest => if k = k' then adel k rest else (k', v') :: adel k rest

/-! ## SHA-256 (crypto/sha256), executable

A faithful executable SHA-256 over byte lists, used by every hashing site of
the source (`sha256.Sum256`, `sha256.New`/`Write`/`Sum`). -/

/-- Truncate to 32 bits. -/
def u32 (n : Nat) : Nat := n % 4294967296

/-- A 32-bit right rotation. -/
def rotr32 (x n : Nat) : Nat := u32 ((x >>> n) ||| (x <<< (32 - n)))

/-- SHA-256 Σ₀. -/
def bsig0 (x : Nat) : Nat := rotr32 x 2 ^^^ rotr32 x 13 ^^^ rotr32 x 22

/-- SHA-256 Σ₁. -/
def bsig1 (x : Nat) : Nat := rotr32 x 6 ^^^ rotr32 x 11 ^^^ rotr32 x 25

/-- SHA-256 σ₀. -/
def ssig0 (x : Nat) : Nat := rotr32 x 7 ^^^ rotr32 x 18 ^^^ (x >>> 3)

/-- SHA-256 σ₁. -/
def ssig1 (x : Nat) : Nat := rotr32 x 17 ^^^ rotr32 x 19 ^^^ (x >>> 10)

/-- The 64 SHA-256 round constants. -/
def sha256K : List Nat :=
  [1116352408, 1899447441, 3049323471, 3921009573, 961987163, 1508970993,
   2453635748, 2870763221, 3624381080, 310598401, 607225278, 1426881987,
   1925078388, 2162078206, 2614888103, 3248222580, 3835390401, 4022224774,
   264347078, 604807628, 770255983, 1249150122, 1555081692, 1996064986,
   2554220882, 2821834349, 2952996808, 3210313671, 3336571891, 3584528711,
   113926993, 338241895, 666307205, 773529912, 1294757372, 1396182291,
   1695183700, 1986661051, 2177026350, 2456956037, 2730485921, 2820302411,
   3259730800, 3345764771, 3516065817, 3600352804, 4094571909, 275423344,
   430227734, 506948616, 659060556, 883997877, 958139571, 1322822218,
   1537002063, 1747873779, 1955562222, 2024104815, 2227730452, 2361852424,
   2428436474, 2756734187, 3204031479, 3329325298]

/-- The SHA-256 initial hash state. -/
def sha256H0 : List Nat :=
  [1779033703, 3144134277, 1013904242, 2773480762, 1359893119, 2600822924, 528734635, 1541459225]

/-- Big-endian 64-bit encoding of `n % 2^64` (encoding/binary `PutUint64`). -/
def u64be (n : Nat) : Bytes :=
  let m := n % 18446744073709551616
  [(m >>> 56) % 256, (m >>> 48) % 256, (m >>> 40) % 256, (m >>> 32) % 256,
   (m >>> 24) % 256, (m >>> 16) % 256, (m >>> 8) % 256, m % 256]

/-- Group bytes into big-endian 32-bit words. -/
def wordsBE : Bytes → List Nat
  | a :: b :: c :: d :: rest => (((a * 256 + b) * 256 + c) * 256 + d) :: wordsBE rest
  | _ => []

/-- Extend the 16 message words by `n` more schedule words. -/
def shaExtend : Nat → List Nat → List Nat
  | 0, w => w
  | n + 1, w =>
    let i := w.length
    let x := u32 (ssig1 (w.getD (i - 2) 0) + w.getD (i - 7) 0 +
                  ssig0 (w.getD (i - 15) 0) + w.getD (i - 16) 0)
    shaExtend n (w ++ [x])

/-- One SHA-256 round on the eight-word working state. -/
def shaRound (s : List Nat) (k w : Nat) : List Nat :=
  match s with
  | [a, b, c, d, e, f, g, h] =>
    let ch := (e &&& f) ^^^ ((e ^^^ 4294967295) &&& g)
    let maj := (a &&& b) ^^^ (a &&& c) ^^^ (b &&& c)
    let t1 := u32 (h + bsig1 e + ch + k + w)
    let t2 := u32 (bsig0 a + maj)
    [u32 (t1 + t2), a, b, c, u32 (d + t1), e, f, g]
  | other => other

/-- Compress one 16-word block into the hash state. -/
def shaCompress (h : List Nat) (blk : List Nat) : List Nat :=
  let w := shaExtend 48 blk
  let f := (sha256K.zip w).foldl (fun s kw => shaRound s kw.1 kw.2) h
  List.zipWith (fun x y => u32 (x + y)) h f

/-- Split padded input into 16-word blocks; the fuel is the byte length. -/
def shaChunks : Nat → Bytes → List (List Nat)
  | 0, _ => []
  | _ + 1, [] => []
  | n + 1, l => wordsBE (l.take 64) :: shaChunks n (l.drop 64)

/-- SHA-256 padding: 0x80, zeros to 56 mod 64, then the bit length. -/
def shaPad (msg : Bytes) : Bytes :=
  msg ++ 128 :: List.replicate ((119 - msg.length % 64) % 64) 0 ++ u64be (8 * msg.length)

/-- SHA-256 of a byte string, as 32 bytes. -/
def sha256Bytes (msg : Bytes) : Hash :=
  let padded := shaPad msg
  let hFin := (shaChunks padded.length padded).foldl shaCompress sha256H0
  hFin.foldr (fun w acc =>
    (w >>> 24) % 256 :: (w >>> 16) % 256 :: (w >>> 8) % 256 :: w % 256 :: acc) []

/-! ## Integer byte encodings -/

/-- Minimal big-endian digits of a natural number (empty for zero); the fuel
bounds the byte count at 255, the range the canonical encoding itself covers. -/
def natBEAux : Nat → Nat → Bytes
  | 0, _ => []
  | _ + 1, 0 => []
  | f + 1, n => natBEAux f (n / 256) ++ [n % 256]

/-- Go `big.Int.Bytes()`: the big-endian magnitude, empty for zero. -/
def bigIntBytes (n : Int) : Bytes := natBEAux 255 n.natAbs

/-- Source `writeBig` (src/types/transaction.go:123-131): zero (or nil) writes the
single byte 0; otherwise one length byte (`uint8` truncated) then the
big-endian magnitude. -/
def writeBig (n : Int) : Bytes :=
  if n = 0 then [0]
  else (bigIntBytes n).length % 256 :: bigIntBytes n

/-! ## Account (src/types/account.go) -/

/-- Source `Account` (src/types/account.go:17-24); the balance is a `big.Int`,
never nil in reachable states. -/
structure Account where
  address : Address
  Balance : Int
  Nonce : Nat
  CodeHash : Hash
  StorageRoot : Hash
  Frozen : Bool
deriving DecidableEq

/-- Source `NewAccount` (src/types/account.go:26-35). -/
def NewAccount (addr : Address) : Account :=
  { address := addr, Balance := 0, Nonce := 0,
    CodeHash := ZeroHash, StorageRoot := ZeroHash, Frozen := false }

/-- The byte string `Account.Hash` feeds to SHA-256
(src/types/account.go:41-73): address, then the raw balance magnitude (a
single 0 byte when the balance is zero or nil), nonce as u64 big-endian,
code hash, storage root, and the frozen flag byte. -/
def Account.hashInput (a : Account) : Bytes :=
  a.address ++
  (if a.Balance ≠ 0 then bigIntBytes a.Balance else [0]) ++
  u64be a.Nonce ++
  a.CodeHash ++
  a.StorageRoot ++
  (if a.Frozen then [1] else [0])

/-- Source `Account.Hash` (src/types/account.go:41-73). -/
def Account.Hash (a : Account) : Hash := sha256Bytes a.hashInput

/-- Source `Account.Copy` (src/types/account.go:79-97): a deep copy; in the value
model this is the identity (the nil-balance normalisation has no nil to
normalise). -/
def Account.Copy (a : Account) : Account := a

/-- Source `Account.AddBalance` (src/types/account.go:99-108). -/
def Account.AddBalance (a : Account) (amount : Int) : Except String Account :=
  if amount < 0 then .error "amount must be non-negative"
  else .ok { a with Balance := a.Balance + amount }

/-- Source `Account.SubBalance` (src/types/account.go:110-122). -/
def Account.SubBalance (a : Account) (amount : Int) : Except String Account :=
  if amount < 0 then .error "amount must be non-negative"
  else if a.Balance < amount then .error "insufficient balance"
  else .ok { a with Balance := a.Balance - amount }

/-- Source `Account.IncrementNonce` (src/types/account.go:124-129); the Go `uint64`
increment wraps. -/
def Account.IncrementNonce (a : Account) : Except String Account :=
  .ok { a with Nonce := (a.Nonce + 1) % 18446744073709551616 }

/-! ## Transaction (src/types/transaction.go) -/

/-- Source `Signature` (src/types/transaction.go:20-24). -/
structure Signature where
  R : Int
  S : Int
  V : Nat
deriving DecidableEq

/-- Source `Transaction` (src/types/transaction.go:26-39).  `fromCache` models the
non-persisted `from *Address` sender cache (`none` when unset). -/
structure Transaction where
  ChainId : Int
  type : Nat
  Nonce : Nat
  To : Address
  Value : Int
  GasPrice : Int
  GasLimit : Nat
  Data : Bytes
  Signature : Signature
  fromCache : Option Address
deriving DecidableEq

/-- Source `TxTypeTransfer = 0x01` (src/types/transaction.go:17). -/
def TxTypeTransfer : Nat := 1

/-- Source `Transaction.HashForSign` (src/types/transaction.go:74-103). -/
def Transaction.HashForSign (tx : Transaction) : Hash :=
  sha256Bytes
    (writeBig tx.ChainId ++ [tx.type % 256] ++ u64be tx.Nonce ++ tx.To ++
     writeBig tx.Value ++ writeBig tx.GasPrice ++ u64be tx.GasLimit ++
     u64be tx.Data.length ++ tx.Data)

/-- Source `Transaction.Hash` — the tx id (src/types/transaction.go:106-121); the
in-struct cache always holds this value once computed, so the pure model
recomputes it. -/
def Transaction.Hash (tx : Transaction) : Hash :=
  sha256Bytes
    (tx.HashForSign ++ writeBig tx.Signature.R ++ writeBig tx.Signature.S ++
     [tx.Signature.V % 256])

/-- Source `Transaction.ValidateBasic` (src/types/transaction.go:133-153), for a
non-nil transaction. -/
def Transaction.ValidateBasic (tx : Transaction) : Except String Unit :=
  if tx.ChainId ≤ 0 then .error "invalid chainId"
  else if tx.type ≠ TxTypeTransfer then .error "unsupported tx type"
  else if tx.Value < 0 then .error "invalid value"
  else if tx.GasLimit = 0 then .error "gasLimit must > 0"
  else if tx.GasPrice < 0 then .error "invalid gas price"
  else .ok ()

/-- Source `Transaction.GetFrom` (src/types/transaction.go:159-164). -/
def Transaction.GetFrom (tx : Transaction) : Address :=
  tx.fromCache.getD zeroAddress

/-- A sender-recovery oracle standing for `RecoverTxSender`
(src/types/crypto.go:83-113): secp256k1 public-key recovery is treated as an
abstract function from the transaction to a sender or a failure; every
theorem quantifies over it. -/
abbrev Recover := Transaction → Except String Address

/-! ## StateDB (src/types/statedb.go, the snapshot-capable variant at
lines 159-335) -/

/-- Source `StateDB` (src/types/statedb.go:159-164): the account map, the snapshot
table keyed by opaque ids, and the next snapshot id. -/
structure StateDB where
  accounts : List (Address × Account)
  snapshots : List (Nat × List (Address × Account))
  nextSnapshot : Nat
deriving DecidableEq

/-- Source `NewStateDB` (src/types/statedb.go:166-172). -/
def NewStateDB : StateDB := { accounts := [], snapshots := [], nextSnapshot := 0 }

/-- Source `getOrCreate` (src/types/statedb.go:175-182): reads the account,
inserting a fresh one if the address is absent. -/
def StateDB.getOrCreate (s : StateDB) (addr : Address) : Account × StateDB :=
  match alookup addr s.accounts with
  | some acc => (acc, s)
  | none =>
    let acc := NewAccount addr
    (acc, { s with accounts := aset addr acc s.accounts })

/-- Source `StateDB.GetAccount` (src/types/statedb.go:185-194): a copy, or a fresh
zero account when absent. -/
def StateDB.GetAccount (s : StateDB) (addr : Address) : Account :=
  match alookup addr s.accounts with
  | some acc => acc.Copy
  | none => NewAccount addr

/-- Source `GetBalance` — defined on the duplicated StateDB
(src/unnamed/part_017:41-48); over the principal StateDB it is the balance
read with zero default, as the spec's state view requires. -/
def StateDB.GetBalance (s : StateDB) (addr : Address) : Int :=
  match alookup addr s.accounts with
  | some acc => acc.Balance
  | none => 0

/-- Source `GetNonce` — defined on the duplicated StateDB
(src/unnamed/part_017:50-56); zero default when absent. -/
def StateDB.GetNonce (s : StateDB) (addr : Address) : Nat :=
  match alookup addr s.accounts with
  | some acc => acc.Nonce
  | none => 0

/-- Source `StateDB.AddBalance` (src/types/statedb.go:196-207).  The pair carries
the post-call state: a failing account-level check still leaves the
`getOrCreate` insertion in place, exactly as in Go. -/
def StateDB.AddBalance (s : StateDB) (addr : Address) (amount : Int) :
    StateDB × Except String Unit :=
  if amount < 0 then (s, .error "amount must be non-negative")
  else
    let (acc, s₁) := s.getOrCreate addr
    match acc.AddBalance amount with
    | .error e => (s₁, .error e)
    | .ok acc₂ => ({ s₁ with accounts := aset addr acc₂ s₁.accounts }, .ok ())

/-- Source `StateDB.SubBalance` (src/types/statedb.go:209-220). -/
def StateDB.SubBalance (s : StateDB) (addr : Address) (amount : Int) :
    StateDB × Except String Unit :=
  if amount < 0 then (s, .error "amount must be non-negative")
  else
    let (acc, s₁) := s.getOrCreate addr
    match acc.SubBalance amount with
    | .error e => (s₁, .error e)
    | .ok acc₂ => ({ s₁ with accounts := aset addr acc₂ s₁.accounts }, .ok ())

/-- Source `StateDB.IncrementNonce` (src/types/statedb.go:222-229). -/
def StateDB.IncrementNonce (s : StateDB) (addr : Address) :
    StateDB × Except String Unit :=
  let (acc, s₁) := s.getOrCreate addr
  match acc.IncrementNonce with
  | .error e => (s₁, .error e)
  | .ok acc₂ => ({ s₁ with accounts := aset addr acc₂ s₁.accounts }, .ok ())

/-- Source `StateDB.Snapshot` (src/types/statedb.go:245-260): stores a deep copy of
the account map under a fresh id and returns the id. -/
def StateDB.Snapshot (s : StateDB) : Nat × StateDB :=
  let id := s.nextSnapshot
  (id, { s with nextSnapshot := id + 1, snapshots := aset id s.accounts s.snapshots })

/-- Source `StateDB.RevertToSnapshot` (src/types/statedb.go:262-281): restores the
captured account map and discards the handle; no-op on unknown ids. -/
def StateDB.RevertToSnapshot (s : StateDB) (id : Nat) : StateDB :=
  match alookup id s.snapshots with
  | none => s
  | some snap => { s with accounts := snap, snapshots := adel id s.snapshots }

/-- Source `CommitSnapshot` — called by the executor and the chain; the principal
StateDB does not define it, the duplicated one does
(src/unnamed/part_017:128-135): the handle is discarded without restoring
state, as the spec's `CommitSnapshot(id)` requires. -/
def StateDB.CommitSnapshot (s : StateDB) (id : Nat) : StateDB :=
  { s with snapshots := adel id s.snapshots }

/-! ## State root (src/types/statedb.go:284-335) -/

/-- Go `bytes.Compare`: lexicographic byte comparison, shorter prefix first. -/
def compareBytes : Bytes → Bytes → Ordering
  | [], [] => .eq
  | [], _ :: _ => .lt
  | _ :: _, [] => .gt
  | a :: as, b :: bs =>
    if a < b then .lt else if b < a then .gt else compareBytes as bs

/-- The sort order of `StateRoot`: `bytes.Compare(a, b) ≤ 0`. -/
def addrLe (a b : Address) : Prop := compareBytes a b ≠ Ordering.gt

instance : DecidableRel addrLe := fun a b => by
  unfold addrLe; infer_instance

/-- One Merkle level: duplicate the last node when the count is odd
(src/types/statedb.go:322-325). -/
def padEven (hs : List Hash) : List Hash :=
  if hs.length % 2 = 0 then hs else hs ++ [hs.getLastD ZeroHash]

/-- Pairwise SHA-256 of concatenated children (src/types/statedb.go:326-330). -/
def pairUp : List Hash → List Hash
  | x :: y :: rest => sha256Bytes (x ++ y) :: pairUp rest
  | _ => []

/-- The Merkle reduction loop; the fuel (the leaf count) dominates the
number of levels. -/
def merkleRounds : Nat → List Hash → List Hash
  | 0, hs => hs
  | f + 1, hs => if hs.length ≤ 1 then hs else merkleRounds f (pairUp (padEven hs))

/-- Source `merkleFromHashes` (src/types/statedb.go:311-335): empty input gives the
zero hash, a single leaf is its own root, otherwise reduce level by level. -/
def merkleFromHashes (leaves : List Hash) : Hash :=
  match leaves with
  | [] => ZeroHash
  | [x] => x
  | _ => (merkleRounds leaves.length leaves).headD ZeroHash

/-- Source `StateDB.StateRoot` (src/types/statedb.go:284-309): leaves are
`SHA-256(addr ‖ AccountHash)` in sorted address order, reduced by the
Bitcoin-style Merkle tree; the empty state maps to the zero hash. -/
def StateDB.StateRoot (s : StateDB) : Hash :=
  if s.accounts.isEmpty then ZeroHash
  else
    let addrs := List.insertionSort addrLe (s.accounts.map Prod.fst)
    let leaves := addrs.map fun a =>
      sha256Bytes (a ++ ((alookup a s.accounts).getD (NewAccount a)).Hash)
    merkleFromHashes leaves

/-! ## Block headers (src/types/block.go) -/

/-- Source `BlockHeader` — the union of the duplicated header declarations
(src/types/block.go:12-24 adds Proposer/Validator/Witness;
src/types/block.go:185-196 adds ReceiptsRoot/GasUsed/Extra); each function
below reads exactly the fields its own source variant reads. -/
structure BlockHeader where
  ParentHash : Hash
  StateRoot : Hash
  TxRoot : Hash
  ReceiptsRoot : Hash
  Height : Nat
  Timestamp : Int
  GasUsed : Nat
  GasLimit : Nat
  Proposer : Address
  Validator : Address
  Witness : Address
  Extra : Bytes
deriving DecidableEq

/-- Source `Block` (src/types/block.go:57-61): a possibly-nil header and the
transaction list (nil transaction entries are not modelled; the tx-root
computation skips them in the source). -/
structure Block where
  Header : Option BlockHeader
  Transactions : List Transaction
deriving DecidableEq

/-! ## Receipts and the tier executor (src/types/executor.go) -/

/-- Source `Receipt` (src/types/executor.go:11-16). -/
structure Receipt where
  TxHash : Hash
  Success : Bool
  GasUsed : Nat
  Logs : List Bytes
deriving DecidableEq

/-- Source `ChainConfig` of the tier executor (src/types/executor.go:19-29). -/
structure ChainConfig where
  ChainID : Nat
  RewardPool : Address
  ShareTier1 : Nat
  ShareTier2 : Nat
  ShareTier3 : Nat
  SharePool : Nat
deriving DecidableEq

/-- Source `calcPct` (src/types/executor.go:138-144): `base × pct / 100` with
`big.Int.Div`, which is Euclidean division. -/
def calcPct (base : Int) (pct : Nat) : Int :=
  if pct = 0 then 0 else base * (pct : Int) / 100

/-- The Go `int64 → uint64` conversion (two's complement reinterpretation). -/
def int64ToU64 (i : Int) : Nat := (i % 18446744073709551616).toNat

/-- The tier reward distribution of `ExecuteTx`
(src/types/executor.go:107-123), extracted as a helper: each share of the
fee is computed by `calcPct` and credited when positive and (for the three
tiers) when the respective header address is non-zero; the reward adds
discard their error results exactly as the source does. -/
def ExecutorT.distributeRewards (cfg : ChainConfig) (current : BlockHeader)
    (fee : Int) (s₃ : StateDB) : StateDB :=
  let t1 := calcPct fee cfg.ShareTier1
  let t2 := calcPct fee cfg.ShareTier2
  let t3 := calcPct fee cfg.ShareTier3
  let pfund := calcPct fee cfg.SharePool
  let s₄ := if t1 > 0 ∧ current.Proposer.IsZero = false then
              (s₃.AddBalance current.Proposer t1).1 else s₃
  let s₅ := if t2 > 0 ∧ current.Validator.IsZero = false then
              (s₄.AddBalance current.Validator t2).1 else s₄
  let s₆ := if t3 > 0 ∧ current.Witness.IsZero = false then
              (s₅.AddBalance current.Witness t3).1 else s₅
  if pfund > 0 then (s₆.AddBalance cfg.RewardPool pfund).1 else s₆

/-- Source `Executor.ExecuteTx` of the tier executor (src/types/executor.go:74-136).
The executor's fields are passed explicitly: the recovery oracle, the config,
the current block header (`e.current`, which Go dereferences, so executing
paths always set it first), and the shared StateDB.  The post-call state is
returned alongside the receipt or error. -/
def ExecutorT.ExecuteTx (recover : Recover) (cfg : ChainConfig)
    (current : BlockHeader) (s : StateDB) (tx? : Option Transaction) :
    StateDB × Except String Receipt :=
  match tx? with
  | none => (s, .error "nil tx")
  | some tx =>
    match recover tx with
    | .error _ => (s, .error "invalid signature")
    | .ok sender =>
      let (snap, s₀) := s.Snapshot
      let fee : Int := (tx.GasLimit : Int) * tx.GasPrice
      let total := tx.Value + fee
      match s₀.SubBalance sender total with
      | (s₁, .error e) => (s₁.RevertToSnapshot snap, .error e)
      | (s₁, .ok _) =>
      match s₁.IncrementNonce sender with
      | (s₂, .error e) => (s₂.RevertToSnapshot snap, .error e)
      | (s₂, .ok _) =>
      let afterValue :=
        if tx.Value > 0 then
          match s₂.AddBalance tx.To tx.Value with
          | (s₃, .error e) => (s₃.RevertToSnapshot snap, Except.error e)
          | (s₃, .ok _) => (s₃, Except.ok ())
        else (s₂, Except.ok ())
      match afterValue with
      | (s₃, .error e) => (s₃, .error e)
      | (s₃, .ok _) =>
        ((ExecutorT.distributeRewards cfg current fee s₃).CommitSnapshot snap,
         .ok { TxHash := tx.Hash, Success := true, GasUsed := tx.GasLimit, Logs := [] })

/-! ## The pool-share executor (the duplicated module appended in
src/types/mempool.go:109-277) -/

/-- Source `ChainConfig` of the pool-share executor (src/types/mempool.go:128-133). -/
structure ChainConfigP where
  ChainID : Nat
  Coinbase : Address
  RewardPool : Address
  PoolShare : Nat
deriving DecidableEq

/-- Source `Executor.ExecuteTx` of the pool-share executor
(src/types/mempool.go:187-277): the variant that checks the nonce under
strict equality before touching state. -/
def ExecutorP.ExecuteTx (recover : Recover) (cfg : ChainConfigP)
    (s : StateDB) (tx? : Option Transaction) : StateDB × Except String Receipt :=
  match tx? with
  | none => (s, .error "nil transaction")
  | some tx =>
    let cached := tx.GetFrom
    let senderR : Except String Address :=
      if cached.IsZero then recover tx else .ok cached
    match senderR with
    | .error e => (s, .error e)
    | .ok sender =>
      if tx.Nonce ≠ s.GetNonce sender then (s, .error "invalid nonce")
      else if tx.GasPrice < 0 then (s, .error "invalid gasPrice")
      else
        let gasFee : Int := (tx.GasLimit : Int) * tx.GasPrice
        let totalCost := tx.Value + gasFee
        let (snap, s₀) := s.Snapshot
        match s₀.SubBalance sender totalCost with
        | (s₁, .error e) => (s₁.RevertToSnapshot snap, .error e)
        | (s₁, .ok _) =>
        match s₁.IncrementNonce sender with
        | (s₂, .error e) => (s₂.RevertToSnapshot snap, .error e)
        | (s₂, .ok _) =>
        let afterValue :=
          if tx.Value > 0 then
            match s₂.AddBalance tx.To tx.Value with
            | (s₃, .error e) => (s₃.RevertToSnapshot snap, Except.error e)
            | (s₃, .ok _) => (s₃, Except.ok ())
          else (s₂, Except.ok ())
        match afterValue with
        | (s₃, .error e) => (s₃, .error e)
        | (s₃, .ok _) =>
          if gasFee > 0 ∧ cfg.PoolShare > 100 then
            (s₃.RevertToSnapshot snap, .error "invalid pool share")
          else
            let poolAmount : Int :=
              if gasFee > 0 ∧ cfg.PoolShare > 0 then
                gasFee * (cfg.PoolShare : Int) / 100 else 0
            let minerAmount : Int := if gasFee > 0 then gasFee - poolAmount else 0
            let s₄ := if poolAmount > 0 then (s₃.AddBalance cfg.RewardPool poolAmount).1 else s₃
            let s₅ := if minerAmount > 0 then (s₄.AddBalance cfg.Coinbase minerAmount).1 else s₄
            (s₅.CommitSnapshot snap,
             .ok { TxHash := tx.Hash, Success := true, GasUsed := tx.GasLimit, Logs := [] })

/-! ## Mempool (src/types/mempool.go:13-109) -/

/-- Source `Mempool` (src/types/mempool.go:13-18). -/
structure Mempool where
  pending : List Transaction
  state : StateDB
  maxSize : Nat
deriving DecidableEq

/-- Source `NewMempool` (src/types/mempool.go:20-26): capacity defaults to 5000. -/
def NewMempool (state : StateDB) : Mempool :=
  { pending := [], state := state, maxSize := 5000 }

/-- The eviction sort order: ascending `GasPrice` (`Cmp < 0` in the source;
`sort.Slice` produces some list sorted under the reflexive closure). -/
def gpLe (a b : Transaction) : Prop := a.GasPrice ≤ b.GasPrice

instance : DecidableRel gpLe := fun a b => by
  unfold gpLe; infer_instance

/-- Source `Mempool.evictLowestGas` (src/types/mempool.go:95-103): sort pending by
ascending gas price and drop the first element. -/
def Mempool.evictLowestGas (m : Mempool) : Mempool :=
  if m.pending.isEmpty then m
  else { m with pending := (List.insertionSort gpLe m.pending).drop 1 }

/-- Source `Mempool.AddTx` (src/types/mempool.go:28-71): reject nil, duplicates by
tx id, signature failures, insufficient balance, and nonces strictly below
the sender's current nonce; evict one transaction when full, then append. -/
def Mempool.AddTx (recover : Recover) (m : Mempool) (tx? : Option Transaction) :
    Mempool × Except String Unit :=
  match tx? with
  | none => (m, .error "nil tx")
  | some tx =>
    if m.pending.any (fun t => t.Hash == tx.Hash) then
      (m, .error "duplicate transaction")
    else
      match recover tx with
      | .error _ => (m, .error "invalid signature")
      | .ok sender =>
        let gasCost : Int := (tx.GasLimit : Int) * tx.GasPrice
        let totalCost := tx.Value + gasCost
        if m.state.GetBalance sender < totalCost then
          (m, .error "insufficient balance")
        else if tx.Nonce < m.state.GetNonce sender then
          (m, .error "nonce too low")
        else
          let m₁ := if m.pending.length ≥ m.maxSize then m.evictLowestGas else m
          ({ m₁ with pending := m₁.pending ++ [tx] }, .ok ())

/-! ## Block hashing and validation (src/types/block.go) -/

/-- Source `BlockHeader.HashHeader` (src/types/block.go:27-52): SHA-256 over
parent hash, height, timestamp (as u64), state root, tx root, gas limit,
proposer, validator and witness. -/
def BlockHeader.HashHeader (h : BlockHeader) : Hash :=
  sha256Bytes
    (h.ParentHash ++ u64be h.Height ++ u64be (int64ToU64 h.Timestamp) ++
     h.StateRoot ++ h.TxRoot ++ u64be h.GasLimit ++
     h.Proposer ++ h.Validator ++ h.Witness)

/-- Source `Block.Hash` (src/types/block.go:69-75, with the nil-header guard of the
duplicated variant at 261-270); the in-struct cache always holds this value. -/
def Block.Hash (b : Block) : Hash :=
  match b.Header with
  | some h => h.HashHeader
  | none => ZeroHash

/-- Source `CalculateTxRoot` (src/types/block.go:276-294): zero hash for an empty
list, else the Bitcoin-style Merkle root over tx ids
(`buildTxMerkleRoot`, 296-318, is the same reduction as
`merkleFromHashes`). -/
def CalculateTxRoot (txs : List Transaction) : Hash :=
  if txs.isEmpty then ZeroHash
  else merkleFromHashes (txs.map Transaction.Hash)

/-- Source `Block.ValidateBasic` (src/types/block.go:96-123): non-nil header,
gasLimit > 0, gasUsed ≤ gasLimit, timestamp > 0, and the recomputed tx root
must match the header. -/
def Block.ValidateBasic (b? : Option Block) : Except String Unit :=
  match b? with
  | none => .error "nil block"
  | some b =>
    match b.Header with
    | none => .error "nil block header"
    | some h =>
      if h.GasLimit = 0 then .error "gasLimit must be > 0"
      else if h.GasUsed > h.GasLimit then .error "gasUsed greater than gasLimit"
      else if h.Timestamp ≤ 0 then .error "invalid timestamp"
      else if CalculateTxRoot b.Transactions ≠ h.TxRoot then .error "tx root mismatch"
      else .ok ()

/-! ## Blockchain (src/types/blockchain.go) -/

/-- Source `Blockchain` (src/types/blockchain.go:12-19) together with its embedded
executor's mutable fields (`config`, `current`); the StateDB is the single
state shared by chain and executor. -/
structure Blockchain where
  state : StateDB
  cfg : ChainConfig
  current : Option BlockHeader
  blocksByHash : List (Hash × Block)
  blocksByHeight : List (Nat × Block)
  head : Option Block
deriving DecidableEq

/-- Source `NewBlockchain` (src/types/blockchain.go:22-30). -/
def NewBlockchain (state : StateDB) (cfg : ChainConfig) : Blockchain :=
  { state := state, cfg := cfg, current := none,
    blocksByHash := [], blocksByHeight := [], head := none }

/-- Source `Executor.SetCoinbase` (src/types/executor.go:45-49): overwrite the
current header's proposer when a current header is set.  In Go this mutates
the pointed-to header in place — a header that may still be referenced by a
previously committed block; that aliasing is visible only through the stored
blocks' `Proposer` field, which no theorem below mentions, so the model
updates only the executor's own view. -/
def Blockchain.setCoinbase (bc : Blockchain) (addr : Address) : Blockchain :=
  match bc.current with
  | none => bc
  | some hdr => { bc with current := some { hdr with Proposer := addr } }

/-- The transaction loop of `Executor.ExecuteBlock`
(src/types/executor.go:61-67): execute in order, abort on the first error
(receipts elided — no claim mentions them). -/
def ExecutorT.ExecuteTxs (recover : Recover) (cfg : ChainConfig)
    (current : BlockHeader) (s : StateDB) :
    List Transaction → StateDB × Except String Unit
  | [] => (s, .ok ())
  | tx :: rest =>
    match ExecutorT.ExecuteTx recover cfg current s (some tx) with
    | (s', .error e) => (s', .error e)
    | (s', .ok _) => ExecutorT.ExecuteTxs recover cfg current s' rest

/-- Source `Executor.ExecuteBlock` (src/types/executor.go:53-70): reject nil block
or header, set the current header to the block's, run every transaction. -/
def ExecutorT.ExecuteBlock (recover : Recover) (cfg : ChainConfig)
    (current : Option BlockHeader) (s : StateDB) (b? : Option Block) :
    Option BlockHeader × StateDB × Except String Unit :=
  match b? with
  | none => (current, s, .error "invalid block")
  | some b =>
    match b.Header with
    | none => (current, s, .error "invalid block")
    | some h =>
      let (s', r) := ExecutorT.ExecuteTxs recover cfg h s b.Transactions
      (some h, s', r)

/-- Source `commitBlock` (src/types/blockchain.go:142-148): index by hash and by
height, move the head to the committed block. -/
def Blockchain.commitBlock (bc : Blockchain) (b : Block) : Blockchain :=
  let hh := b.Hash
  let height := (b.Header.map BlockHeader.Height).getD 0
  { bc with blocksByHash := aset hh b bc.blocksByHash,
            blocksByHeight := aset height b bc.blocksByHeight,
            head := some b }

/-- Source `Blockchain.AddBlock` (src/types/blockchain.go:54-138): stateless
validation, a block-level snapshot, the genesis or normal path, the
state-root agreement check, then commit. -/
def Blockchain.AddBlock (recover : Recover) (bc : Blockchain) (b? : Option Block) :
    Blockchain × Except String Unit :=
  match b? with
  | none => (bc, .error "nil block")
  | some b =>
    match Block.ValidateBasic (some b) with
    | .error e => (bc, .error e)
    | .ok _ =>
      match b.Header with
      | none => (bc, .error "nil block header")  -- unreachable after ValidateBasic
      | some h =>
        let (blockSnap, st₀) := bc.state.Snapshot
        let bc₀ := { bc with state := st₀ }
        if h.Height = 0 then
          match bc₀.head with
          | some _ =>
            ({ bc₀ with state := bc₀.state.RevertToSnapshot blockSnap },
             .error "genesis already exists")
          | none =>
            let bc₁ := bc₀.setCoinbase h.Proposer
            let afterExec :
                Blockchain × Except String Unit :=
              if b.Transactions.isEmpty then (bc₁, .ok ())
              else
                match ExecutorT.ExecuteBlock recover bc₁.cfg bc₁.current bc₁.state (some b) with
                | (cur, s', .error e) =>
                  ({ bc₁ with current := cur, state := s'.RevertToSnapshot blockSnap }, .error e)
                | (cur, s', .ok _) => ({ bc₁ with current := cur, state := s' }, .ok ())
            match afterExec with
            | (bc₂, .error e) => (bc₂, .error e)
            | (bc₂, .ok _) =>
              if bc₂.state.StateRoot ≠ h.StateRoot then
                ({ bc₂ with state := bc₂.state.RevertToSnapshot blockSnap },
                 .error "genesis state mismatch")
              else
                (({ bc₂ with state := bc₂.state.CommitSnapshot blockSnap }).commitBlock b, .ok ())
        else
          match alookup h.ParentHash bc₀.blocksByHash with
          | none =>
            ({ bc₀ with state := bc₀.state.RevertToSnapshot blockSnap },
             .error "unknown parent block")
          | some parent =>
            if h.Height ≠ (parent.Header.map BlockHeader.Height).getD 0 + 1 then
              ({ bc₀ with state := bc₀.state.RevertToSnapshot blockSnap },
               .error "invalid height")
            else
              let bc₁ := bc₀.setCoinbase h.Proposer
              match ExecutorT.ExecuteBlock recover bc₁.cfg bc₁.current bc₁.state (some b) with
              | (cur, s', .error e) =>
                ({ bc₁ with current := cur, state := s'.RevertToSnapshot blockSnap }, .error e)
              | (cur, s', .ok _) =>
                let bc₂ := { bc₁ with current := cur, state := s' }
                if bc₂.state.StateRoot ≠ h.StateRoot then
                  ({ bc₂ with state := bc₂.state.RevertToSnapshot blockSnap },
                   .error "state root mismatch")
                else
                  (({ bc₂ with state := bc₂.state.CommitSnapshot blockSnap }).commitBlock b, .ok ())

/-! ## A pointer-level refinement of `GetAccount` (src/types/statedb.go:185-194)

To state the aliasing guarantee of `GetAccount` — the returned record is a
fresh allocation, never an interior reference — the account map is refined
to hold heap pointers: `getAccount` allocates a fresh cell holding the copy
(or a fresh zero account) and hands back its pointer. -/

/-- The heap of account records; pointers are indices. -/
abbrev Heap := List Account

/-- Read the account cell at a pointer. -/
def heapRead (heap : Heap) (p : Nat) : Account := heap.getD p (NewAccount zeroAddress)

/-- Overwrite the account cell at a pointer. -/
def heapWrite (heap : Heap) (p : Nat) (a : Account) : Heap := heap.set p a

/-- The pointer-level state store: addresses map to heap pointers. -/
structure RefStateDB where
  accounts : List (Address × Nat)
deriving DecidableEq

/-- All stored pointers are live. -/
def RefStateDB.wf (s : RefStateDB) (heap : Heap) : Prop :=
  ∀ e ∈ s.accounts, e.2 < heap.length

/-- Source `StateDB.GetAccount` at pointer level: allocate a fresh cell holding
`acc.Copy()` when the address is present, a fresh `NewAccount(addr)` when it
is absent, and return the fresh pointer. -/
def RefStateDB.getAccount (s : RefStateDB) (heap : Heap) (addr : Address) :
    Nat × Heap :=
  match alookup addr s.accounts with
  | some p => (heap.length, heap ++ [(heapRead heap p).Copy])
  | none => (heap.length, heap ++ [NewAccount addr])

/-- What a later reader of the store observes for an address. -/
def RefStateDB.readStore (s : RefStateDB) (heap : Heap) (addr : Address) :
    Option Account :=
  (alookup addr s.accounts).map (heapRead heap)

/-! ## Abbreviations used by the operation characterizations -/

/-- The account `getOrCreate` yields: the stored one, or a fresh zero
account. -/
def StateDB.accountOf (s : StateDB) (b : Address) : Account :=
  (alookup b s.accounts).getD (NewAccount b)

/-- Replace an account's balance. -/
def Account.withBalance (a : Account) (v : Int) : Account := { a with Balance := v }

/-- Replace an account's nonce. -/
def Account.withNonce (a : Account) (v : Nat) : Account := { a with Nonce := v }

/-- Replace the account map of a state. -/
def StateDB.withAccounts (s : StateDB) (l : List (Address × Account)) : StateDB :=
  { s with accounts := l }

/-- The gas fee of a transaction, `gasLimit × gasPrice`
(src/types/executor.go:86). -/
def txFee (tx : Transaction) : Int := (tx.GasLimit : Int) * tx.GasPrice

/-- The balance change of one address between two states. -/
def balanceDelta (s s' : StateDB) (x : Address) : Int :=
  s'.GetBalance x - s.GetBalance x

/-! ## Spec-side definitions

Definitions written from the specification's words, for comparison with the
source-derived definitions above. -/

/-- The spec's canonical big-integer encoding (spec §4.1): one length byte
then the big-endian magnitude; the zero integer encodes as the single byte
0x00.  (This matches the source's `writeBig` used for transaction hashing.) -/
def canonicalInt (n : Int) : Bytes :=
  if n = 0 then [0]
  else (bigIntBytes n).length % 256 :: bigIntBytes n

/-- The account-hash preimage claimed by the spec (spec §4.3):
`addr[20] ‖ canonical-int(balance) ‖ u64BE(nonce) ‖ codeHash[32] ‖
storageRoot[32] ‖ frozenFlag[1]`. -/
def specAccountHashInput (a : Account) : Bytes :=
  a.address ++ canonicalInt a.Balance ++ u64be a.Nonce ++
  a.CodeHash ++ a.StorageRoot ++ (if a.Frozen then [1] else [0])

/-- The block-validity predicate claimed by the spec for
`Block.ValidateBasic` (spec §4.6): non-nil header; gasLimit > 0;
timestamp ≥ 0 and strictly positive on non-genesis heights; non-zero
proposer on non-genesis blocks; extra at most 1024 bytes; the recomputed
tx Merkle root matches the header; every transaction passes its own
`ValidateBasic`. -/
def specBlockOK (b? : Option Block) : Bool :=
  match b? with
  | none => false
  | some b =>
    match b.Header with
    | none => false
    | some h =>
      decide (0 < h.GasLimit) &&
      decide (0 ≤ h.Timestamp) &&
      (decide (h.Height = 0) || decide (0 < h.Timestamp)) &&
      (decide (h.Height = 0) || !h.Proposer.IsZero) &&
      decide (h.Extra.length ≤ 1024) &&
      decide (CalculateTxRoot b.Transactions = h.TxRoot) &&
      b.Transactions.all fun tx => decide (tx.ValidateBasic = .ok ())

/-- The height of the chain head, when a head with a header exists. -/
def headHeightOf (bc : Blockchain) : Option Nat :=
  bc.head.bind fun b => b.Header.map BlockHeader.Height

/-! ## Concrete fixtures for witnesses and counterexamples -/

/-- A 20-byte address with the given first byte. -/
def mkAddr (b : Byte) : Address := b :: List.replicate 19 0

/-- Example sender. -/
def exA : Address := mkAddr 1

/-- Example recipient. -/
def exB : Address := mkAddr 2

/-- Example proposer. -/
def exP : Address := mkAddr 3

/-- Example validator. -/
def exV : Address := mkAddr 4

/-- Example witness address. -/
def exW : Address := mkAddr 5

/-- Example reward pool. -/
def exR : Address := mkAddr 6

/-- A recovery oracle that always recovers the given sender. -/
def recoverConst (a : Address) : Recover := fun _ => .ok a

/-- A state holding one account with the given balance and nonce. -/
def singleState (a : Address) (bal : Int) (nonce : Nat) : StateDB :=
  { accounts := [(a, { NewAccount a with Balance := bal, Nonce := nonce })],
    snapshots := [], nextSnapshot := 0 }

/-- A transfer transaction fixture. -/
def mkTx (chainId : Int) (nonce : Nat) (dest : Address) (value gasPrice : Int)
    (gasLimit : Nat) : Transaction :=
  { ChainId := chainId, type := TxTypeTransfer, Nonce := nonce, To := dest,
    Value := value, GasPrice := gasPrice, GasLimit := gasLimit, Data := [],
    Signature := { R := 1, S := 1, V := 0 }, fromCache := none }

/-- A header fixture builder: the remaining fields are zero-like. -/
def mkHeader (parent : Hash) (height : Nat) (ts : Int) (proposer : Address) :
    BlockHeader :=
  { ParentHash := parent, StateRoot := ZeroHash, TxRoot := ZeroHash,
    ReceiptsRoot := ZeroHash, Height := height, Timestamp := ts, GasUsed := 0,
    GasLimit := 1, Proposer := proposer, Validator := zeroAddress,
    Witness := zeroAddress, Extra := [] }

/-- Tier config with all shares zero. -/
def cfgZero : ChainConfig :=
  { ChainID := 1, RewardPool := exR,
    ShareTier1 := 0, ShareTier2 := 0, ShareTier3 := 0, SharePool := 0 }

/-- Tier config with four shares of 25 % each. -/
def cfg25 : ChainConfig :=
  { ChainID := 1, RewardPool := exR,
    ShareTier1 := 25, ShareTier2 := 25, ShareTier3 := 25, SharePool := 25 }

/-- A current header naming the example tier participants. -/
def hdrEx : BlockHeader :=
  { ParentHash := ZeroHash, StateRoot := ZeroHash, TxRoot := ZeroHash,
    ReceiptsRoot := ZeroHash, Height := 1, Timestamp := 1, GasUsed := 0,
    GasLimit := 1, Proposer := exP, Validator := exV, Witness := exW, Extra := [] }

/-- An account with balance 5 (its magnitude is one byte, so the canonical
length prefix matters). -/
def acc5 : Account := { NewAccount exA with Balance := 5 }

/-- A block at height 1 with a zero proposer, otherwise valid: zero-proposer
blocks are accepted by the source `ValidateBasic`. -/
def blkC7 : Block :=
  { Header := some (mkHeader ZeroHash 1 1 zeroAddress), Transactions := [] }

/-- Genesis block fixture: empty state root, no transactions. -/
def blk0 : Block :=
  { Header := some (mkHeader ZeroHash 0 1 exP), Transactions := [] }

/-- First child of genesis. -/
def blk1 : Block :=
  { Header := some (mkHeader blk0.Hash 1 1 exP), Transactions := [] }

/-- A sibling of `blk1`: same parent (genesis), same height 1, different
timestamp. -/
def blk1x : Block :=
  { Header := some (mkHeader blk0.Hash 1 2 exP), Transactions := [] }

/-- The chain after committing genesis. -/
def bcRun1 : Blockchain :=
  (Blockchain.AddBlock (recoverConst exA) (NewBlockchain NewStateDB cfgZero) (some blk0)).1

/-- The chain after additionally committing `blk1` (head height 1). -/
def bcRun2 : Blockchain :=
  (Blockchain.AddBlock (recoverConst exA) bcRun1 (some blk1)).1

/-- The chain after additionally committing the sibling `blk1x`. -/
def bcRun3 : Blockchain :=
  (Blockchain.AddBlock (recoverConst exA) bcRun2 (some blk1x)).1

/-- A mempool fixture with an empty pending set over the given state. -/
def mkPool (st : StateDB) (pending : List Transaction) (maxSize : Nat) : Mempool :=
  { pending := pending, state := st, maxSize := maxSize }

/-- Pool-share executor config with share 0. -/
def cfgP0 : ChainConfigP :=
  { ChainID := 1, Coinbase := exP, RewardPool := exR, PoolShare := 0 }

/-- A mempool over a funded sender with an empty pending set. -/
def mpC6 : Mempool := mkPool (singleState exA 100 0) [] 5000

/-- A malformed transaction: chain id 0 fails `ValidateBasic`, everything
else is admissible. -/
def txMal : Transaction := mkTx 0 0 exB 1 1 10

/-- A well-formed transaction with a future nonce (3 over current 0). -/
def txC6ok : Transaction := mkTx 1 3 exB 1 1 10

/-- A full two-slot mempool: two pending transactions with gas prices 3
and 1. -/
def mp10 : Mempool :=
  mkPool (singleState exA 1000 0) [mkTx 1 1 exB 5 3 10, mkTx 1 2 exB 5 1 10] 2

/-- A newcomer whose gas price 0 is lower than every pending one. -/
def tx10 : Transaction := mkTx 1 3 exB 5 0 10

/-! # Theorems

First the generic association-list lemmas and state-operation
characterizations, then the claim theorems. -/

theorem alookup_aset_self {α β : Type} [DecidableEq α] (k : α) (v : β) (l : List (α × β)) :
    alookup k (aset k v l) = some v := by
  induction l with
  | nil => simp [alookup, aset]
  | cons hd tl ih =>
    by_cases h : k = hd.1
    · simp [alookup, aset, h]
    · simp [alookup, aset, h, ih]

theorem alookup_aset_ne {α β : Type} [DecidableEq α] {k k' : α} (h : k ≠ k') (v : β)
    (l : List (α × β)) : alookup k (aset k' v l) = alookup k l := by
  induction l with
  | nil => simp [alookup, aset, h]
  | cons hd tl ih =>
    by_cases h1 : k' = hd.1
    · subst h1
      simp [alookup, aset, h]
    · by_cases h2 : k = hd.1 <;> simp [alookup, aset, h1, h2, ih]

theorem aset_aset_same {α β : Type} [DecidableEq α] (k : α) (v w : β) (l : List (α × β)) :
    aset k v (aset k w l) = aset k v l := by
  induction l with
  | nil => simp [aset]
  | cons hd tl ih =>
    by_cases h : k = hd.1 <;> simp [aset, h, ih]

theorem aset_lookup_self {α β : Type} [DecidableEq α] {k : α} {v : β} {l : List (α × β)}
    (h : alookup k l = some v) : aset k v l = l := by
  induction l with
  | nil => simp [alookup] at h
  | cons hd tl ih =>
    by_cases h1 : k = hd.1
    · simp [alookup, h1] at h
      simp [aset, h1, ← h]
    · simp [alookup, h1] at h
      simp [aset, h1, ih h]

/-! ## StateDB operation characterizations -/

theorem GetBalance_def (s : StateDB) (x : Address) :
    s.GetBalance x = ((alookup x s.accounts).getD (NewAccount x)).Balance := by
  unfold StateDB.GetBalance
  cases alookup x s.accounts <;> simp [NewAccount]

theorem GetNonce_def (s : StateDB) (x : Address) :
    s.GetNonce x = ((alookup x s.accounts).getD (NewAccount x)).Nonce := by
  unfold StateDB.GetNonce
  cases alookup x s.accounts <;> simp [NewAccount]

theorem getOrCreate_eq (s : StateDB) (b : Address) :
    s.getOrCreate b =
      ((alookup b s.accounts).getD (NewAccount b),
       { s with accounts := aset b ((alookup b s.accounts).getD (NewAccount b)) s.accounts }) := by
  unfold StateDB.getOrCreate
  cases h : alookup b s.accounts with
  | none => simp
  | some acc => simp [aset_lookup_self h]

theorem AddBalance_eq (s : StateDB) (b : Address) (amt : Int) (h : 0 ≤ amt) :
    s.AddBalance b amt =
      (s.withAccounts (aset b ((s.accountOf b).withBalance (s.GetBalance b + amt)) s.accounts), .ok ()) := by
  unfold StateDB.AddBalance Account.AddBalance StateDB.withAccounts Account.withBalance StateDB.accountOf
  rw [getOrCreate_eq]
  simp [aset_aset_same, GetBalance_def, not_lt.mpr h]

theorem SubBalance_eq (s : StateDB) (b : Address) (amt : Int) (h : 0 ≤ amt)
    (hb : amt ≤ s.GetBalance b) :
    s.SubBalance b amt =
      (s.withAccounts (aset b ((s.accountOf b).withBalance (s.GetBalance b - amt)) s.accounts), .ok ()) := by
  unfold StateDB.SubBalance Account.SubBalance StateDB.withAccounts Account.withBalance StateDB.accountOf
  rw [getOrCreate_eq]
  rw [GetBalance_def] at hb
  simp [aset_aset_same, GetBalance_def, not_lt.mpr h, not_lt.mpr hb]

theorem SubBalance_insufficient (s : StateDB) (b : Address) (amt : Int) (h : 0 ≤ amt)
    (hb : s.GetBalance b < amt) :
    s.SubBalance b amt =
      (s.withAccounts (aset b (s.accountOf b) s.accounts), .error "insufficient balance") := by
  unfold StateDB.SubBalance Account.SubBalance StateDB.withAccounts StateDB.accountOf
  rw [getOrCreate_eq]
  rw [GetBalance_def] at hb
  simp [not_lt.mpr h, hb]

theorem IncrementNonce_eq (s : StateDB) (b : Address) :
    s.IncrementNonce b =
      (s.withAccounts (aset b ((s.accountOf b).withNonce ((s.GetNonce b + 1) % 18446744073709551616)) s.accounts), .ok ()) := by
  unfold StateDB.IncrementNonce Account.IncrementNonce StateDB.withAccounts Account.withNonce StateDB.accountOf
  rw [getOrCreate_eq]
  simp [aset_aset_same, GetNonce_def]

theorem GetBalance_aset (l : List (Address × Account))
    (snaps : List (Nat × List (Address × Account))) (nxt : Nat)
    (b : Address) (acc : Account) (x : Address) :
    (StateDB.mk (aset b acc l) snaps nxt).GetBalance x =
      if x = b then acc.Balance else (StateDB.mk l snaps nxt).GetBalance x := by
  by_cases h : x = b
  · subst h
    simp [GetBalance_def, alookup_aset_self]
  · simp [GetBalance_def, alookup_aset_ne h, h]

theorem GetNonce_aset (l : List (Address × Account))
    (snaps : List (Nat × List (Address × Account))) (nxt : Nat)
    (b : Address) (acc : Account) (x : Address) :
    (StateDB.mk (aset b acc l) snaps nxt).GetNonce x =
      if x = b then acc.Nonce else (StateDB.mk l snaps nxt).GetNonce x := by
  by_cases h : x = b
  · subst h
    simp [GetNonce_def, alookup_aset_self]
  · simp [GetNonce_def, alookup_aset_ne h, h]

theorem RevertToSnapshot_eq (s : StateDB) (id : Nat) (acc0 : List (Address × Account))
    (h : alookup id s.snapshots = some acc0) :
    s.RevertToSnapshot id = { s with accounts := acc0, snapshots := adel id s.snapshots } := by
  unfold StateDB.RevertToSnapshot
  rw [h]

/-! ## SHA-256 sanity checks against the standard test vectors -/

theorem sha256_abc_vector :
    sha256Bytes [97, 98, 99] =
      [0xba, 0x78, 0x16, 0xbf, 0x8f, 0x01, 0xcf, 0xea, 0x41, 0x41, 0x40, 0xde,
       0x5d, 0xae, 0x22, 0x23, 0xb0, 0x03, 0x61, 0xa3, 0x96, 0x17, 0x7a, 0x9c,
       0xb4, 0x10, 0xff, 0x61, 0xf2, 0x00, 0x15, 0xad] := by decide

theorem sha256_empty_vector :
    sha256Bytes [] =
      [0xe3, 0xb0, 0xc4, 0x42, 0x98, 0xfc, 0x1c, 0x14, 0x9a, 0xfb, 0xf4, 0xc8,
       0x99, 0x6f, 0xb9, 0x24, 0x27, 0xae, 0x41, 0xe4, 0x64, 0x9b, 0x93, 0x4c,
       0xa4, 0x95, 0x99, 0x1b, 0x78, 0x52, 0xb8, 0x55] := by decide

/-! ## C8 — the account-hash preimage -/

/-- C8 (counterexample): for the one-byte balance 5, `Account.Hash` differs
from SHA-256 over the spec's canonical-int preimage — the source writes the
raw magnitude with no length byte. -/
theorem accountHash_canonical_cex :
    Account.Hash acc5 ≠ sha256Bytes (specAccountHashInput acc5) := by decide

/-- C8 (amended): `AccountHash(acc)` is SHA-256 of
`addr ‖ B ‖ u64BE(nonce) ‖ codeHash ‖ storageRoot ‖ frozenFlag` where `B` is
the canonical-int encoding of the balance with its leading length byte
removed for non-zero balances (the zero balance still encodes as the single
byte 0x00). -/
theorem accountHash_raw_magnitude (a : Account) :
    a.Hash = sha256Bytes
      (a.address ++ (canonicalInt a.Balance).drop (if a.Balance = 0 then 0 else 1) ++
       u64be a.Nonce ++ a.CodeHash ++ a.StorageRoot ++
       (if a.Frozen then [1] else [0])) := by
  unfold Account.Hash Account.hashInput canonicalInt
  by_cases h : a.Balance = 0 <;> simp [h]

/-! ## C7 — block validation -/

/-- C7 (counterexample): a height-1 block with a zero proposer passes the
source `Block.ValidateBasic` although the claimed validity conjunction
rejects it. -/
theorem validateBasic_spec_cex :
    Block.ValidateBasic (some blkC7) = .ok () ∧ specBlockOK (some blkC7) = false := by
  constructor <;> decide

/-- C7 (amended): `Block.ValidateBasic` succeeds exactly when the header is
non-nil, gasLimit > 0, gasUsed ≤ gasLimit, the timestamp is strictly
positive (also at genesis), and the recomputed transaction Merkle root
matches the header; the proposer, the extra size and per-transaction
validity are not checked. -/
theorem validateBasic_characterization (b? : Option Block) :
    Block.ValidateBasic b? = .ok () ↔
      ∃ b h, b? = some b ∧ b.Header = some h ∧ h.GasLimit ≠ 0 ∧
        h.GasUsed ≤ h.GasLimit ∧ 0 < h.Timestamp ∧
        CalculateTxRoot b.Transactions = h.TxRoot := by
  cases b? with
  | none => simp [Block.ValidateBasic]
  | some b =>
    cases hh : b.Header with
    | none => simp [Block.ValidateBasic, hh]
    | some h =>
      simp only [Block.ValidateBasic, hh]
      split_ifs with h1 h2 h3 h4 <;> simp_all

/-! ## C4 — determinism of the state root -/

theorem compareBytes_eq_iff : ∀ a b : Bytes, compareBytes a b = .eq ↔ a = b := by
  intro a
  induction a with
  | nil => intro b; cases b <;> simp [compareBytes]
  | cons x as ih =>
    intro b
    cases b with
    | nil => simp [compareBytes]
    | cons y bs =>
      simp only [compareBytes]
      rcases Nat.lt_trichotomy x y with h | h | h
      · simp [h]
        omega
      · subst h
        simp [Nat.lt_irrefl, ih]
      · simp [Nat.not_lt.mpr (Nat.le_of_lt h), h]
        omega

theorem compareBytes_gt_iff : ∀ a b : Bytes, compareBytes a b = .gt ↔ compareBytes b a = .lt := by
  intro a
  induction a with
  | nil => intro b; cases b <;> simp [compareBytes]
  | cons x as ih =>
    intro b
    cases b with
    | nil => simp [compareBytes]
    | cons y bs =>
      simp only [compareBytes]
      rcases Nat.lt_trichotomy x y with h | h | h
      · simp [h, Nat.not_lt.mpr (Nat.le_of_lt h)]
      · subst h
        simp [Nat.lt_irrefl, ih]
      · simp [h, Nat.not_lt.mpr (Nat.le_of_lt h)]

theorem compareBytes_le_trans :
    ∀ a b c : Bytes, compareBytes a b ≠ .gt → compareBytes b c ≠ .gt →
      compareBytes a c ≠ .gt := by
  intro a
  induction a with
  | nil =>
    intro b c _ _
    cases c <;> simp [compareBytes]
  | cons x as ih =>
    intro b c h1 h2
    cases b with
    | nil => simp [compareBytes] at h1
    | cons y bs =>
      cases c with
      | nil => simp [compareBytes] at h2
      | cons z cs =>
        simp only [compareBytes] at h1 h2 ⊢
        by_cases hxy : x < y
        · by_cases hyz : y < z
          · simp [Nat.lt_trans hxy hyz]
          · by_cases hzy : z < y
            · simp [hyz, hzy] at h2
            · have hyz' : y = z := by omega
              subst hyz'
              simp [hxy]
        · by_cases hyx : y < x
          · simp [hxy, hyx] at h1
          · have hxy' : x = y := by omega
            subst hxy'
            simp [Nat.lt_irrefl] at h1
            by_cases hxz : x < z
            · simp [hxz]
            · by_cases hzx : z < x
              · simp [hxz, hzx] at h2
              · have hxz' : x = z := by omega
                subst hxz'
                simp [Nat.lt_irrefl] at h2 ⊢
                exact ih bs cs h1 h2

theorem addrLe_total (a b : Address) : addrLe a b ∨ addrLe b a := by
  unfold addrLe
  by_cases h : compareBytes a b = .gt
  · right
    rw [compareBytes_gt_iff] at h
    simp [h]
  · left
    exact h

theorem addrLe_antisymm (a b : Address) (h1 : addrLe a b) (h2 : addrLe b a) : a = b := by
  unfold addrLe at h1 h2
  rcases hc : compareBytes a b with _ | _ | _
  · exact absurd ((compareBytes_gt_iff b a).mpr hc) h2
  · exact (compareBytes_eq_iff a b).mp hc
  · exact absurd hc h1

theorem alookup_of_perm {β : Type} {l₁ l₂ : List (Address × β)}
    (hp : l₁.Perm l₂) (nd : (l₁.map Prod.fst).Nodup) (k : Address) :
    alookup k l₁ = alookup k l₂ := by
  induction hp with
  | nil => rfl
  | cons x hp ih =>
    simp only [List.map_cons, List.nodup_cons] at nd
    by_cases h : k = x.1 <;> simp [alookup, h, ih nd.2]
  | swap x y l =>
    simp only [List.map_cons, List.nodup_cons, List.mem_cons] at nd
    have hxy : y.1 ≠ x.1 := fun h => nd.1 (Or.inl h)
    by_cases h1 : k = y.1 <;> by_cases h2 : k = x.1
    · exact absurd (h1.symm.trans h2) hxy
    · simp [alookup, h1, h2, hxy]
    · simp only [alookup, if_pos h2, if_neg h1]
    · simp [alookup, h1, h2]
  | trans h₁ h₂ ih₁ ih₂ =>
    have nd₂ : _ := ((h₁.map Prod.fst).nodup_iff).mp nd
    exact (ih₁ nd).trans (ih₂ nd₂)

/-- C4: the state root is a function of the account map alone — permuting
the underlying entry list (with unique addresses, as in a Go map) leaves the
root unchanged; the empty state hashes to the zero hash; a single account's
root is its own leaf `SHA-256(addr ‖ AccountHash(acc))` with no doubling. -/
theorem stateRoot_deterministic :
    (∀ s₁ s₂ : StateDB, (s₁.accounts.map Prod.fst).Nodup → s₁.accounts.Perm s₂.accounts →
      s₁.StateRoot = s₂.StateRoot) ∧
    (∀ snaps nxt, (StateDB.mk [] snaps nxt).StateRoot = ZeroHash) ∧
    (∀ (a : Address) (acc : Account) snaps nxt,
      (StateDB.mk [(a, acc)] snaps nxt).StateRoot = sha256Bytes (a ++ acc.Hash)) := by
  refine ⟨?_, ?_, ?_⟩
  · intro s₁ s₂ nd hp
    haveI : IsTotal Address addrLe := ⟨addrLe_total⟩
    haveI : IsTrans Address addrLe := ⟨fun a b c => compareBytes_le_trans a b c⟩
    haveI : IsAntisymm Address addrLe := ⟨addrLe_antisymm⟩
    have hpf : (s₁.accounts.map Prod.fst).Perm (s₂.accounts.map Prod.fst) :=
      hp.map Prod.fst
    by_cases he₂ : s₂.accounts = []
    · have he₁ : s₁.accounts = [] := by
        rw [he₂] at hp
        exact hp.eq_nil
      simp [StateDB.StateRoot, he₁, he₂]
    · have he₁ : s₁.accounts ≠ [] := by
        intro h
        rw [h] at hp
        exact he₂ hp.symm.eq_nil
      have hb₁ : s₁.accounts.isEmpty = false := by
        cases h : s₁.accounts with
        | nil => exact absurd h he₁
        | cons hd tl => rfl
      have hb₂ : s₂.accounts.isEmpty = false := by
        cases h : s₂.accounts with
        | nil => exact absurd h he₂
        | cons hd tl => rfl
      unfold StateDB.StateRoot
      rw [hb₁, hb₂]
      simp only [Bool.false_eq_true, if_false]
      have hsort : List.insertionSort addrLe (s₁.accounts.map Prod.fst) =
          List.insertionSort addrLe (s₂.accounts.map Prod.fst) :=
        List.eq_of_perm_of_sorted
          (((List.perm_insertionSort _ _).trans hpf).trans
            (List.perm_insertionSort _ _).symm)
          (List.sorted_insertionSort _ _) (List.sorted_insertionSort _ _)
      rw [hsort]
      congr 1
      apply List.map_congr_left
      intro a _
      rw [alookup_of_perm hp nd a]
  · intro snaps nxt
    simp [StateDB.StateRoot]
  · intro a acc snaps nxt
    simp [StateDB.StateRoot, List.insertionSort, List.orderedInsert, alookup,
          merkleFromHashes]

/-- C4 (witness): two concrete two-account states whose maps are equal up to
entry order have equal roots. -/
theorem stateRoot_deterministic_witness :
    (((StateDB.mk [(exA, acc5), (exB, NewAccount exB)] [] 0).accounts.map Prod.fst).Nodup ∧
     (StateDB.mk [(exA, acc5), (exB, NewAccount exB)] [] 0).accounts.Perm
       (StateDB.mk [(exB, NewAccount exB), (exA, acc5)] [] 0).accounts) ∧
    (StateDB.mk [(exA, acc5), (exB, NewAccount exB)] [] 0).StateRoot =
      (StateDB.mk [(exB, NewAccount exB), (exA, acc5)] [] 0).StateRoot := by
  refine ⟨⟨by decide, List.Perm.swap _ _ _⟩, ?_⟩
  exact stateRoot_deterministic.1 _ _ (by decide) (List.Perm.swap _ _ _)

/-! ## C1 — nonce handling of ExecuteTx -/

/-- C1 (counterexample): the tier executor (src/types/executor.go:74-136)
performs no nonce check at all — a transaction with nonce 5 against a
sender whose state nonce is 0 executes successfully. -/
theorem executeTx_no_nonce_check_cex :
    (ExecutorT.ExecuteTx (recoverConst exA) cfgZero hdrEx (singleState exA 1000 0)
      (some (mkTx 1 5 exB 1 1 10))).2.isOk = true ∧
    (mkTx 1 5 exB 1 1 10).Nonce ≠ (singleState exA 1000 0).GetNonce exA := by
  constructor <;> decide

/-- C1 (amended): the pool-share executor variant
(src/types/mempool.go:187-277) checks the nonce under strict equality: with
the sender resolved (cached or recovered), a nonce different from the
sender's current state nonce fails with `invalid nonce` before any state is
touched, and a transaction can only execute successfully when its nonce
equals the current nonce. -/
theorem executeTx_nonce_strict (recover : Recover) (cfg : ChainConfigP) (s : StateDB)
    (tx : Transaction) (sender : Address)
    (hs : (if tx.GetFrom.IsZero = true then recover tx else .ok tx.GetFrom) =
      Except.ok sender) :
    (tx.Nonce ≠ s.GetNonce sender →
      ExecutorP.ExecuteTx recover cfg s (some tx) = (s, .error "invalid nonce")) ∧
    ((ExecutorP.ExecuteTx recover cfg s (some tx)).2.isOk = true →
      tx.Nonce = s.GetNonce sender) := by
  have hfirst : tx.Nonce ≠ s.GetNonce sender →
      ExecutorP.ExecuteTx recover cfg s (some tx) = (s, .error "invalid nonce") := by
    intro hn
    simp only [ExecutorP.ExecuteTx]
    rw [hs]
    simp [hn]
  refine ⟨hfirst, ?_⟩
  intro hok
  by_contra hne
  rw [hfirst hne] at hok
  simp [Except.isOk, Except.toBool] at hok

/-- C1 (witness): concrete instance of the strict check — nonce 5 against
state nonce 0 is rejected with the state untouched. -/
theorem executeTx_nonce_strict_witness :
    ((if (mkTx 1 5 exB 1 1 10).GetFrom.IsZero = true
        then recoverConst exA (mkTx 1 5 exB 1 1 10)
        else .ok (mkTx 1 5 exB 1 1 10).GetFrom) = Except.ok exA) ∧
    ExecutorP.ExecuteTx (recoverConst exA) cfgP0 NewStateDB (some (mkTx 1 5 exB 1 1 10)) =
      (NewStateDB, .error "invalid nonce") :=
  ⟨by decide,
   (executeTx_nonce_strict (recoverConst exA) cfgP0 NewStateDB (mkTx 1 5 exB 1 1 10) exA
     (by decide)).1 (by decide)⟩

/-! ## C6 — mempool admission -/

/-- C6 (counterexample): a malformed transaction (chain id 0, rejected by
`Transaction.ValidateBasic`) is admitted by `Mempool.AddTx` — admission
never runs the stateless validity check. -/
theorem addTx_malformed_admitted_cex :
    Transaction.ValidateBasic txMal = .error "invalid chainId" ∧
    (Mempool.AddTx (recoverConst exA) mpC6 (some txMal)).2 = .ok () ∧
    txMal ∈ (Mempool.AddTx (recoverConst exA) mpC6 (some txMal)).1.pending := by
  refine ⟨by decide, by decide, by decide⟩

/-- C6 (amended): `Mempool.AddTx` rejects, in order: nil transactions;
duplicates by tx id; signature-recovery failures; senders whose balance is
below `value + gasLimit × gasPrice`; and nonces strictly below the sender's
current state nonce — while a nonce at or above the current one is admitted.
Every rejection returns the mempool unchanged.  (Malformedness beyond
signature recovery is not checked.) -/
theorem addTx_admission (recover : Recover) (m : Mempool) :
    (Mempool.AddTx recover m none = (m, .error "nil tx")) ∧
    ∀ tx : Transaction,
      ((m.pending.any fun t => t.Hash == tx.Hash) = true →
        Mempool.AddTx recover m (some tx) = (m, .error "duplicate transaction")) ∧
      ((m.pending.any fun t => t.Hash == tx.Hash) = false →
        (∀ e, recover tx = .error e →
          Mempool.AddTx recover m (some tx) = (m, .error "invalid signature")) ∧
        ∀ sender, recover tx = .ok sender →
          ((m.state.GetBalance sender < tx.Value + (tx.GasLimit : Int) * tx.GasPrice →
             Mempool.AddTx recover m (some tx) = (m, .error "insufficient balance")) ∧
           (¬ m.state.GetBalance sender < tx.Value + (tx.GasLimit : Int) * tx.GasPrice →
             tx.Nonce < m.state.GetNonce sender →
             Mempool.AddTx recover m (some tx) = (m, .error "nonce too low")) ∧
           (¬ m.state.GetBalance sender < tx.Value + (tx.GasLimit : Int) * tx.GasPrice →
             ¬ tx.Nonce < m.state.GetNonce sender →
             (Mempool.AddTx recover m (some tx)).2 = .ok () ∧
             tx ∈ (Mempool.AddTx recover m (some tx)).1.pending))) := by
  refine ⟨rfl, fun tx => ⟨?_, ?_⟩⟩
  · intro hdup
    simp [Mempool.AddTx, hdup]
  · intro hdup
    refine ⟨?_, ?_⟩
    · intro e herr
      simp [Mempool.AddTx, hdup, herr]
    · intro sender hrec
      refine ⟨?_, ?_, ?_⟩
      · intro hbal
        simp [Mempool.AddTx, hdup, hrec, hbal]
      · intro hbal hnon
        simp [Mempool.AddTx, hdup, hrec, hbal, hnon]
      · intro hbal hnon
        simp [Mempool.AddTx, hdup, hrec, hbal, hnon]

/-- C6 (witness): a well-formed transaction with a future nonce (3 over
current 0) and sufficient balance is admitted into an empty pool. -/
theorem addTx_admission_witness :
    (Mempool.AddTx (recoverConst exA) mpC6 (some txC6ok)).2 = .ok () ∧
    txC6ok ∈ (Mempool.AddTx (recoverConst exA) mpC6 (some txC6ok)).1.pending :=
  (((addTx_admission (recoverConst exA) mpC6).2 txC6ok).2 (by decide)).2 exA
    (by decide) |>.2.2 (by decide) (by decide)

/-! ## C9 — GetAccount returns an independent copy -/

theorem alookup_mem {α β : Type} [DecidableEq α] {k : α} {v : β} :
    ∀ {l : List (α × β)}, alookup k l = some v → (k, v) ∈ l := by
  intro l
  induction l with
  | nil => intro h; simp [alookup] at h
  | cons hd tl ih =>
    obtain ⟨k1, v1⟩ := hd
    intro h
    by_cases hk : k = k1
    · simp [alookup, hk] at h
      subst hk
      simp [← h]
    · simp [alookup, hk] at h
      exact List.mem_cons_of_mem _ (ih h)

/-- C9: `GetAccount` hands out a freshly allocated record: the returned cell
holds the stored account's copy (a zero-initialised fresh account when the
address is absent — balance 0, nonce 0, zero hashes, not frozen), and
overwriting the returned cell never changes what any subsequent read of the
store observes, at any address. -/
theorem getAccount_fresh_copy (s : RefStateDB) (heap : Heap) (addr : Address)
    (hwf : s.wf heap) :
    (∀ q, alookup addr s.accounts = some q →
      heapRead (s.getAccount heap addr).2 (s.getAccount heap addr).1 = heapRead heap q) ∧
    (alookup addr s.accounts = none →
      heapRead (s.getAccount heap addr).2 (s.getAccount heap addr).1 =
        { address := addr, Balance := 0, Nonce := 0, CodeHash := ZeroHash,
          StorageRoot := ZeroHash, Frozen := false }) ∧
    (∀ (newAcc : Account) (x : Address),
      s.readStore (heapWrite (s.getAccount heap addr).2 (s.getAccount heap addr).1 newAcc) x =
      s.readStore heap x) := by
  have hfreshRead : ∀ c : Account, heapRead (heap ++ [c]) heap.length = c := by
    intro c
    unfold heapRead
    rw [List.getD_eq_getElem?_getD, List.getElem?_concat_length]
    rfl
  have hframe : ∀ (c newAcc : Account) (x : Address),
      s.readStore (heapWrite (heap ++ [c]) heap.length newAcc) x = s.readStore heap x := by
    intro c newAcc x
    unfold RefStateDB.readStore heapWrite heapRead
    cases hx : alookup x s.accounts with
    | none => rfl
    | some p =>
      have hp : p < heap.length := hwf _ (alookup_mem hx)
      simp only [Option.map_some']
      congr 1
      rw [List.getD_eq_getElem?_getD, List.getD_eq_getElem?_getD,
          List.getElem?_set_ne (by omega),
          List.getElem?_append_left hp]
  cases hl : alookup addr s.accounts with
  | some q =>
    refine ⟨?_, ?_, ?_⟩
    · intro q' hq'
      cases hq'
      simp only [RefStateDB.getAccount, hl]
      exact hfreshRead _
    · intro h
      cases h
    · intro newAcc x
      simp only [RefStateDB.getAccount, hl]
      exact hframe _ newAcc x
  | none =>
    refine ⟨?_, ?_, ?_⟩
    · intro q' hq'
      cases hq'
    · intro _
      simp only [RefStateDB.getAccount, hl]
      rw [hfreshRead]
      rfl
    · intro newAcc x
      simp only [RefStateDB.getAccount, hl]
      exact hframe _ newAcc x

/-- C9 (witness): over a one-account store, reading an absent address yields
the fresh zero account, and overwriting the returned cell leaves the stored
account's observed balance unchanged. -/
theorem getAccount_fresh_copy_witness :
    (RefStateDB.mk [(exA, 0)]).wf [acc5] ∧
    heapRead ((RefStateDB.mk [(exA, 0)]).getAccount [acc5] exB).2
        ((RefStateDB.mk [(exA, 0)]).getAccount [acc5] exB).1 =
      { address := exB, Balance := 0, Nonce := 0, CodeHash := ZeroHash,
        StorageRoot := ZeroHash, Frozen := false } ∧
    (RefStateDB.mk [(exA, 0)]).readStore
        (heapWrite ((RefStateDB.mk [(exA, 0)]).getAccount [acc5] exB).2
          ((RefStateDB.mk [(exA, 0)]).getAccount [acc5] exB).1
          (NewAccount exB).Copy) exA =
      (RefStateDB.mk [(exA, 0)]).readStore [acc5] exA := by
  have hwf : (RefStateDB.mk [(exA, 0)]).wf [acc5] := by
    intro e he
    rw [List.mem_singleton] at he
    subst he
    decide
  have h := getAccount_fresh_copy (RefStateDB.mk [(exA, 0)]) [acc5] exB hwf
  exact ⟨hwf, h.2.1 (by decide), h.2.2 (NewAccount exB).Copy exA⟩

/-! ## C10 — admission at capacity always evicts exactly one lowest-gas tx -/

theorem gpLe_total (a b : Transaction) : gpLe a b ∨ gpLe b a :=
  Int.le_total a.GasPrice b.GasPrice

theorem gpLe_trans {a b c : Transaction} (h1 : gpLe a b) (h2 : gpLe b c) : gpLe a c :=
  le_trans h1 h2

/-- C10: when the pool is exactly at capacity and the newcomer passes every
admission check, `AddTx` evicts one pending transaction of minimal gas price
and appends the newcomer — regardless of the newcomer's own gas price — so
the count stays at capacity and the newcomer is pending. -/
theorem addTx_full_evicts_lowest (recover : Recover) (m : Mempool) (tx : Transaction)
    (sender : Address)
    (hfull : m.pending.length = m.maxSize) (hpos : 0 < m.maxSize)
    (hdup : (m.pending.any fun t => t.Hash == tx.Hash) = false)
    (hrec : recover tx = .ok sender)
    (hbal : ¬ m.state.GetBalance sender < tx.Value + (tx.GasLimit : Int) * tx.GasPrice)
    (hnon : ¬ tx.Nonce < m.state.GetNonce sender) :
    (Mempool.AddTx recover m (some tx)).2 = .ok () ∧
    (Mempool.AddTx recover m (some tx)).1.pending.length = m.maxSize ∧
    tx ∈ (Mempool.AddTx recover m (some tx)).1.pending ∧
    ∃ ev, ev ∈ m.pending ∧ (∀ t ∈ m.pending, ev.GasPrice ≤ t.GasPrice) ∧
      (Mempool.AddTx recover m (some tx)).1.pending.Perm (m.pending.erase ev ++ [tx]) := by
  haveI : IsTotal Transaction gpLe := ⟨gpLe_total⟩
  haveI : IsTrans Transaction gpLe := ⟨fun _ _ _ => gpLe_trans⟩
  have hne : m.pending ≠ [] := by
    intro h
    rw [h] at hfull
    simp at hfull
    omega
  have hfull' : m.pending.length ≥ m.maxSize := le_of_eq hfull.symm
  have hADD : Mempool.AddTx recover m (some tx) =
      ({ m.evictLowestGas with
          pending := m.evictLowestGas.pending ++ [tx] }, .ok ()) := by
    simp [Mempool.AddTx, hdup, hrec, hbal, hnon, hfull']
  have hevict : m.evictLowestGas.pending = (List.insertionSort gpLe m.pending).drop 1 := by
    unfold Mempool.evictLowestGas
    rw [if_neg (by simp [hne])]
  have hperm : (List.insertionSort gpLe m.pending).Perm m.pending :=
    List.perm_insertionSort _ _
  have hsorted : List.Sorted gpLe (List.insertionSort gpLe m.pending) :=
    List.sorted_insertionSort _ _
  obtain ⟨ev, rest, hcons⟩ : ∃ ev rest, List.insertionSort gpLe m.pending = ev :: rest := by
    cases hc : List.insertionSort gpLe m.pending with
    | nil =>
      rw [hc] at hperm
      exact absurd hperm.symm.eq_nil hne
    | cons ev rest => exact ⟨ev, rest, rfl⟩
  have hmem : ev ∈ m.pending := hperm.mem_iff.mp (by rw [hcons]; simp)
  have hrestPerm : rest.Perm (m.pending.erase ev) := by
    have := hcons ▸ hperm
    exact (List.cons_perm_iff_perm_erase.mp this).2
  have hmin : ∀ t ∈ m.pending, ev.GasPrice ≤ t.GasPrice := by
    intro t ht
    have ht' : t ∈ ev :: rest := by
      rw [← hcons]
      exact hperm.mem_iff.mpr ht
    rcases List.mem_cons.mp ht' with h | h
    · rw [h]
    · exact List.rel_of_sorted_cons (hcons ▸ hsorted) t h
  refine ⟨by rw [hADD], ?_, ?_, ev, hmem, hmin, ?_⟩
  · rw [hADD]
    simp only [hevict, hcons, List.length_append, List.length_drop]
    have hlen : (List.insertionSort gpLe m.pending).length = m.maxSize := by
      rw [hperm.length_eq, hfull]
    rw [hcons] at hlen
    simp at hlen ⊢
    omega
  · rw [hADD]
    simp
  · rw [hADD]
    simp only [hevict, hcons, List.drop_succ_cons, List.drop_zero]
    exact hrestPerm.append (List.Perm.refl [tx])

/-- C10 (witness): a full two-slot pool with gas prices 3 and 1 admits a
gas-price-0 newcomer; the count stays 2 and the newcomer is pending. -/
theorem addTx_full_evicts_lowest_witness :
    (Mempool.AddTx (recoverConst exA) mp10 (some tx10)).2 = .ok () ∧
    (Mempool.AddTx (recoverConst exA) mp10 (some tx10)).1.pending.length = mp10.maxSize ∧
    tx10 ∈ (Mempool.AddTx (recoverConst exA) mp10 (some tx10)).1.pending := by
  have h := addTx_full_evicts_lowest (recoverConst exA) mp10 tx10 exA
    (by decide) (by decide) (by decide) (by decide) (by decide) (by decide)
  exact ⟨h.1, h.2.1, h.2.2.1⟩

/-! ## C2 — per-transaction atomicity of the tier executor -/

theorem snapshots_AddBalance (s : StateDB) (b : Address) (amt : Int) :
    (s.AddBalance b amt).1.snapshots = s.snapshots := by
  rcases lt_or_le amt 0 with h | h
  · simp [StateDB.AddBalance, h]
  · rw [AddBalance_eq s b amt h]
    simp [StateDB.withAccounts]

theorem snapshots_SubBalance (s : StateDB) (b : Address) (amt : Int) :
    (s.SubBalance b amt).1.snapshots = s.snapshots := by
  rcases lt_or_le amt 0 with h | h
  · simp [StateDB.SubBalance, h]
  · rcases le_or_lt amt (s.GetBalance b) with hb | hb
    · rw [SubBalance_eq s b amt h hb]
      simp [StateDB.withAccounts]
    · rw [SubBalance_insufficient s b amt h hb]
      simp [StateDB.withAccounts]

theorem snapshots_IncrementNonce (s : StateDB) (b : Address) :
    (s.IncrementNonce b).1.snapshots = s.snapshots := by
  rw [IncrementNonce_eq]
  simp [StateDB.withAccounts]

/-- C2: the tier `ExecuteTx` is atomic on failure — whenever it returns an
error (in particular `insufficient balance` after the per-tx snapshot), the
returned state shows every account's balance and nonce unchanged: the error
paths after the snapshot all revert to it, and the paths before it never
touch state. -/
theorem executeTx_error_atomic (recover : Recover) (cfg : ChainConfig)
    (current : BlockHeader) (s : StateDB) (tx? : Option Transaction) (e : String)
    (h : (ExecutorT.ExecuteTx recover cfg current s tx?).2 = .error e) :
    ∀ x, ((ExecutorT.ExecuteTx recover cfg current s tx?).1).GetBalance x = s.GetBalance x ∧
         ((ExecutorT.ExecuteTx recover cfg current s tx?).1).GetNonce x = s.GetNonce x := by
  suffices hacc : ((ExecutorT.ExecuteTx recover cfg current s tx?).1).accounts = s.accounts by
    intro x
    constructor
    · rw [GetBalance_def, GetBalance_def, hacc]
    · rw [GetNonce_def, GetNonce_def, hacc]
  cases tx? with
  | none => rfl
  | some tx =>
    cases hrec : recover tx with
    | error e' => simp [ExecutorT.ExecuteTx, hrec]
    | ok sender =>
      rcases hS : s.Snapshot with ⟨snap, s₀⟩
      have hSsnap : s₀.snapshots = aset snap s.accounts s.snapshots := by
        simp only [StateDB.Snapshot, Prod.mk.injEq] at hS
        rw [← hS.2, ← hS.1]
      simp only [ExecutorT.ExecuteTx, hrec, hS] at h ⊢
      rcases hsub : StateDB.SubBalance s₀ sender (tx.Value + (tx.GasLimit : Int) * tx.GasPrice)
        with ⟨s₁, r₁⟩
      have h1 : s₁.snapshots = s₀.snapshots := by
        have := snapshots_SubBalance s₀ sender (tx.Value + (tx.GasLimit : Int) * tx.GasPrice)
        rw [hsub] at this
        exact this
      cases r₁ with
      | error e₁ =>
        simp only [hsub] at h ⊢
        have hlook : alookup snap s₁.snapshots = some s.accounts := by
          rw [h1, hSsnap]
          exact alookup_aset_self _ _ _
        rw [RevertToSnapshot_eq _ _ _ hlook]
      | ok u₁ =>
        simp only [hsub] at h ⊢
        rcases hinc : StateDB.IncrementNonce s₁ sender with ⟨s₂, r₂⟩
        have h2 : s₂.snapshots = s₀.snapshots := by
          have := snapshots_IncrementNonce s₁ sender
          rw [hinc] at this
          rw [← h1]
          exact this
        cases r₂ with
        | error e₂ =>
          simp only [hinc] at h ⊢
          have hlook : alookup snap s₂.snapshots = some s.accounts := by
            rw [h2, hSsnap]
            exact alookup_aset_self _ _ _
          rw [RevertToSnapshot_eq _ _ _ hlook]
        | ok u₂ =>
          simp only [hinc] at h ⊢
          by_cases hv : tx.Value > 0
          · rcases hadd : StateDB.AddBalance s₂ tx.To tx.Value with ⟨s₃, r₃⟩
            have h3 : s₃.snapshots = s₀.snapshots := by
              have := snapshots_AddBalance s₂ tx.To tx.Value
              rw [hadd] at this
              rw [← h2]
              exact this
            cases r₃ with
            | error e₃ =>
              simp only [if_pos hv, hadd] at h ⊢
              have hlook : alookup snap s₃.snapshots = some s.accounts := by
                rw [h3, hSsnap]
                exact alookup_aset_self _ _ _
              rw [RevertToSnapshot_eq _ _ _ hlook]
            | ok u₃ =>
              simp only [if_pos hv, hadd] at h
              simp at h
          · simp only [if_neg hv] at h ⊢
            simp at h

/-- C2 (witness): a sender with no funds fails with `insufficient balance`
and the state is unchanged. -/
theorem executeTx_error_atomic_witness :
    (ExecutorT.ExecuteTx (recoverConst exA) cfgZero hdrEx NewStateDB
      (some (mkTx 1 0 exB 1 0 0))).2 = Except.error "insufficient balance" ∧
    (((ExecutorT.ExecuteTx (recoverConst exA) cfgZero hdrEx NewStateDB
        (some (mkTx 1 0 exB 1 0 0))).1).GetBalance exA = NewStateDB.GetBalance exA ∧
     ((ExecutorT.ExecuteTx (recoverConst exA) cfgZero hdrEx NewStateDB
        (some (mkTx 1 0 exB 1 0 0))).1).GetNonce exA = NewStateDB.GetNonce exA) :=
  ⟨by decide,
   executeTx_error_atomic (recoverConst exA) cfgZero hdrEx NewStateDB
     (some (mkTx 1 0 exB 1 0 0)) "insufficient balance" (by decide) exA⟩

/-! ## C3 — conservation of value with burn -/

theorem withBalance_Balance (a : Account) (v : Int) : (a.withBalance v).Balance = v := rfl

theorem withNonce_Balance (a : Account) (v : Nat) : (a.withNonce v).Balance = a.Balance := rfl

theorem accountOf_balance (s : StateDB) (b : Address) :
    (s.accountOf b).Balance = s.GetBalance b := by
  rw [GetBalance_def]
  rfl

theorem GetBalance_of_accounts_eq {s t : StateDB} (h : s.accounts = t.accounts)
    (x : Address) : s.GetBalance x = t.GetBalance x := by
  rw [GetBalance_def, GetBalance_def, h]

theorem GetBalance_set (s : StateDB) (b : Address) (acc : Account) (x : Address) :
    (s.withAccounts (aset b acc s.accounts)).GetBalance x =
      if x = b then acc.Balance else s.GetBalance x := by
  by_cases h : x = b
  · subst h
    rw [GetBalance_def]
    simp [StateDB.withAccounts, alookup_aset_self]
  · rw [GetBalance_def, GetBalance_def]
    simp [StateDB.withAccounts, alookup_aset_ne h, h]

theorem GetBalance_AddBalance_fst (s : StateDB) (b : Address) (amt : Int)
    (h : 0 ≤ amt) (x : Address) :
    ((s.AddBalance b amt).1).GetBalance x =
      if x = b then s.GetBalance x + amt else s.GetBalance x := by
  rw [AddBalance_eq s b amt h]
  by_cases hx : x = b
  · subst hx
    simp [GetBalance_set, withBalance_Balance]
  · simp [GetBalance_set, hx]

theorem GetBalance_CommitSnapshot (s : StateDB) (id : Nat) (x : Address) :
    (s.CommitSnapshot id).GetBalance x = s.GetBalance x := by
  rw [GetBalance_def, GetBalance_def]
  rfl

theorem GetBalance_condAdd (s : StateDB) (c : Prop) [Decidable c] (b : Address)
    (amt : Int) (h : 0 ≤ amt) (x : Address) :
    (if c then (s.AddBalance b amt).1 else s).GetBalance x =
      s.GetBalance x + if c ∧ x = b then amt else 0 := by
  by_cases hc : c
  · rw [if_pos hc, GetBalance_AddBalance_fst s b amt h x]
    by_cases hx : x = b <;> simp [hx, hc]
  · simp [hc]

theorem calcPct_nonneg (base : Int) (p : Nat) (h : 0 ≤ base) : 0 ≤ calcPct base p := by
  unfold calcPct
  by_cases hp : p = 0
  · simp [hp]
  · simp only [hp, if_false]
    exact Int.ediv_nonneg (mul_nonneg h (Int.natCast_nonneg p)) (by norm_num)

theorem calcPct_of_dvd (base : Int) (p : Nat) (h : (100 : Int) ∣ base) :
    calcPct base p = base / 100 * p := by
  obtain ⟨k, hk⟩ := h
  subst hk
  unfold calcPct
  by_cases hp : p = 0
  · simp [hp]
  · simp only [hp, if_false]
    rw [Int.mul_ediv_cancel_left k (by norm_num : (100 : Int) ≠ 0)]
    rw [show (100 * k * (p : Int)) = 100 * (k * (p : Int)) from by ring]
    rw [Int.mul_ediv_cancel_left (k * (p : Int)) (by norm_num : (100 : Int) ≠ 0)]

theorem condIf_simplify (t : Int) (ht : 0 ≤ t) (c : Prop) [Decidable c] (hc : c)
    (p : Prop) [Decidable p] :
    (if (t > 0 ∧ c) ∧ p then t else 0) = if p then t else 0 := by
  rcases lt_or_eq_of_le ht with hlt | heq
  · simp [hlt, hc]
  · simp [← heq]

theorem condIf_simplify0 (t : Int) (ht : 0 ≤ t) (p : Prop) [Decidable p] :
    (if t > 0 ∧ p then t else 0) = if p then t else 0 := by
  rcases lt_or_eq_of_le ht with hlt | heq
  · simp [hlt]
  · simp [← heq]

/-- The reward phase credits each role additively (for non-zero tier
addresses): the tier shares go to proposer, validator and witness, the pool
share to the reward pool, each share equal to `calcPct fee share`. -/
theorem distributeRewards_balance (cfg : ChainConfig) (current : BlockHeader)
    (fee : Int) (st : StateDB) (hfee : 0 ≤ fee)
    (hP : current.Proposer.IsZero = false) (hV : current.Validator.IsZero = false)
    (hW : current.Witness.IsZero = false) (x : Address) :
    (ExecutorT.distributeRewards cfg current fee st).GetBalance x =
      st.GetBalance x +
      (if x = current.Proposer then calcPct fee cfg.ShareTier1 else 0) +
      (if x = current.Validator then calcPct fee cfg.ShareTier2 else 0) +
      (if x = current.Witness then calcPct fee cfg.ShareTier3 else 0) +
      (if x = cfg.RewardPool then calcPct fee cfg.SharePool else 0) := by
  have h1 := calcPct_nonneg fee cfg.ShareTier1 hfee
  have h2 := calcPct_nonneg fee cfg.ShareTier2 hfee
  have h3 := calcPct_nonneg fee cfg.ShareTier3 hfee
  have h4 := calcPct_nonneg fee cfg.SharePool hfee
  unfold ExecutorT.distributeRewards
  rw [GetBalance_condAdd _ _ _ _ h4, GetBalance_condAdd _ _ _ _ h3,
      GetBalance_condAdd _ _ _ _ h2, GetBalance_condAdd _ _ _ _ h1]
  rw [condIf_simplify _ h1 _ hP, condIf_simplify _ h2 _ hV,
      condIf_simplify _ h3 _ hW, condIf_simplify0 _ h4]

/-- C3 (amended): a transfer with non-negative value and gas price, enough
sender funds, non-zero tier addresses, and the six role addresses pairwise
distinct executes successfully, and the balance changes of sender,
recipient, proposer, validator, witness and reward pool sum to
`−(fee − (t1 + t2 + t3 + pool))` — the burn is the residual of the four
floored shares, not `fee × (100 − ΣShares)/100`.  All other balances are
unchanged, and when the shares sum to 100 and 100 divides the fee the four
shares sum to the whole fee, so nothing is burned and supply is preserved. -/
theorem executeTx_conservation (recover : Recover) (cfg : ChainConfig)
    (current : BlockHeader) (s : StateDB) (tx : Transaction) (sender : Address)
    (hrec : recover tx = Except.ok sender)
    (hval : 0 ≤ tx.Value) (hgp : 0 ≤ tx.GasPrice)
    (hfund : tx.Value + txFee tx ≤ s.GetBalance sender)
    (hPnz : current.Proposer.IsZero = false)
    (hVnz : current.Validator.IsZero = false)
    (hWnz : current.Witness.IsZero = false)
    (hd : [sender, tx.To, current.Proposer, current.Validator, current.Witness,
           cfg.RewardPool].Nodup) :
    (ExecutorT.ExecuteTx recover cfg current s (some tx)).2.isOk = true ∧
    balanceDelta s (ExecutorT.ExecuteTx recover cfg current s (some tx)).1 sender +
      balanceDelta s (ExecutorT.ExecuteTx recover cfg current s (some tx)).1 tx.To +
      balanceDelta s (ExecutorT.ExecuteTx recover cfg current s (some tx)).1 current.Proposer +
      balanceDelta s (ExecutorT.ExecuteTx recover cfg current s (some tx)).1 current.Validator +
      balanceDelta s (ExecutorT.ExecuteTx recover cfg current s (some tx)).1 current.Witness +
      balanceDelta s (ExecutorT.ExecuteTx recover cfg current s (some tx)).1 cfg.RewardPool =
      -(txFee tx - (calcPct (txFee tx) cfg.ShareTier1 + calcPct (txFee tx) cfg.ShareTier2 +
        calcPct (txFee tx) cfg.ShareTier3 + calcPct (txFee tx) cfg.SharePool)) ∧
    (∀ x, x ≠ sender → x ≠ tx.To → x ≠ current.Proposer → x ≠ current.Validator →
      x ≠ current.Witness → x ≠ cfg.RewardPool →
      balanceDelta s (ExecutorT.ExecuteTx recover cfg current s (some tx)).1 x = 0) ∧
    (cfg.ShareTier1 + cfg.ShareTier2 + cfg.ShareTier3 + cfg.SharePool = 100 →
      (100 : Int) ∣ txFee tx →
      calcPct (txFee tx) cfg.ShareTier1 + calcPct (txFee tx) cfg.ShareTier2 +
        calcPct (txFee tx) cfg.ShareTier3 + calcPct (txFee tx) cfg.SharePool = txFee tx) := by
  have hfee : (0 : Int) ≤ (tx.GasLimit : Int) * tx.GasPrice :=
    mul_nonneg (Int.natCast_nonneg _) hgp
  have htot : (0 : Int) ≤ tx.Value + (tx.GasLimit : Int) * tx.GasPrice :=
    add_nonneg hval hfee
  simp only [List.nodup_cons, List.mem_cons, List.mem_singleton, List.not_mem_nil,
    or_false, not_or, List.nodup_nil, and_true] at hd
  obtain ⟨⟨hd12, hd13, hd14, hd15, hd16⟩, ⟨hd23, hd24, hd25, hd26⟩,
    ⟨hd34, hd35, hd36⟩, ⟨hd45, hd46⟩, hd56, -⟩ := hd
  suffices hmain : (∀ x : Address,
      ((ExecutorT.ExecuteTx recover cfg current s (some tx)).1).GetBalance x =
        s.GetBalance x + (if x = sender then -(tx.Value + txFee tx) else 0) +
        (if x = tx.To then tx.Value else 0) +
        (if x = current.Proposer then calcPct (txFee tx) cfg.ShareTier1 else 0) +
        (if x = current.Validator then calcPct (txFee tx) cfg.ShareTier2 else 0) +
        (if x = current.Witness then calcPct (txFee tx) cfg.ShareTier3 else 0) +
        (if x = cfg.RewardPool then calcPct (txFee tx) cfg.SharePool else 0)) ∧
      (ExecutorT.ExecuteTx recover cfg current s (some tx)).2.isOk = true by
    obtain ⟨hbal, hok⟩ := hmain
    refine ⟨hok, ?_, ?_, ?_⟩
    · unfold balanceDelta
      rw [hbal sender, hbal tx.To, hbal current.Proposer, hbal current.Validator,
          hbal current.Witness, hbal cfg.RewardPool]
      simp [hd12, hd13, hd14, hd15, hd16, hd23, hd24, hd25, hd26, hd34, hd35,
        hd36, hd45, hd46, hd56, Ne.symm hd12, Ne.symm hd13, Ne.symm hd14,
        Ne.symm hd15, Ne.symm hd16, Ne.symm hd23, Ne.symm hd24, Ne.symm hd25,
        Ne.symm hd26, Ne.symm hd34, Ne.symm hd35, Ne.symm hd36, Ne.symm hd45,
        Ne.symm hd46, Ne.symm hd56]
      ring
    · intro x h1 h2 h3 h4 h5 h6
      unfold balanceDelta
      rw [hbal x]
      simp [h1, h2, h3, h4, h5, h6]
    · intro hs had
      rw [calcPct_of_dvd _ _ had, calcPct_of_dvd _ _ had, calcPct_of_dvd _ _ had,
          calcPct_of_dvd _ _ had]
      have hcast : ((cfg.ShareTier1 : Int) + cfg.ShareTier2 + cfg.ShareTier3 +
          cfg.SharePool) = 100 := by exact_mod_cast hs
      calc txFee tx / 100 * ↑cfg.ShareTier1 + txFee tx / 100 * ↑cfg.ShareTier2 +
            txFee tx / 100 * ↑cfg.ShareTier3 + txFee tx / 100 * ↑cfg.SharePool
          = txFee tx / 100 * ((cfg.ShareTier1 : Int) + cfg.ShareTier2 +
              cfg.ShareTier3 + cfg.SharePool) := by ring
        _ = txFee tx / 100 * 100 := by rw [hcast]
        _ = txFee tx := Int.ediv_mul_cancel had
  rcases hS : s.Snapshot with ⟨snap, s₀⟩
  have hs₀acc : s₀.accounts = s.accounts := by
    simp only [StateDB.Snapshot, Prod.mk.injEq] at hS
    rw [← hS.2]
  have hs₀bal : ∀ x, s₀.GetBalance x = s.GetBalance x :=
    fun x => GetBalance_of_accounts_eq hs₀acc x
  have hb₀ : tx.Value + (tx.GasLimit : Int) * tx.GasPrice ≤ s₀.GetBalance sender := by
    rw [hs₀bal]
    exact hfund
  rcases hsub : s₀.SubBalance sender (tx.Value + (tx.GasLimit : Int) * tx.GasPrice)
    with ⟨s₁, r₁⟩
  have hsubeq := SubBalance_eq s₀ sender (tx.Value + (tx.GasLimit : Int) * tx.GasPrice)
    htot hb₀
  rw [hsub] at hsubeq
  simp only [Prod.mk.injEq] at hsubeq
  obtain ⟨hs₁, hr₁⟩ := hsubeq
  subst hr₁
  have hB1 : ∀ x, s₁.GetBalance x =
      if x = sender then s.GetBalance x - (tx.Value + (tx.GasLimit : Int) * tx.GasPrice)
      else s.GetBalance x := by
    intro x
    rw [hs₁]
    by_cases hx : x = sender
    · subst hx
      simp [GetBalance_set, withBalance_Balance, hs₀bal]
    · simp [GetBalance_set, hx, hs₀bal]
  rcases hinc : s₁.IncrementNonce sender with ⟨s₂, r₂⟩
  have hinceq := IncrementNonce_eq s₁ sender
  rw [hinc] at hinceq
  simp only [Prod.mk.injEq] at hinceq
  obtain ⟨hs₂, hr₂⟩ := hinceq
  subst hr₂
  have hB2 : ∀ x, s₂.GetBalance x = s₁.GetBalance x := by
    intro x
    rw [hs₂]
    by_cases hx : x = sender
    · subst hx
      simp [GetBalance_set, withNonce_Balance, accountOf_balance]
    · simp [GetBalance_set, hx]
  by_cases hv : tx.Value > 0
  · rcases hadd : s₂.AddBalance tx.To tx.Value with ⟨s₃, r₃⟩
    have haddeq := AddBalance_eq s₂ tx.To tx.Value hval
    rw [hadd] at haddeq
    simp only [Prod.mk.injEq] at haddeq
    obtain ⟨hs₃, hr₃⟩ := haddeq
    subst hr₃
    have hB3 : ∀ x, s₃.GetBalance x =
        s₂.GetBalance x + if x = tx.To then tx.Value else 0 := by
      intro x
      rw [hs₃]
      by_cases hx : x = tx.To
      · subst hx
        simp [GetBalance_set, withBalance_Balance]
      · simp [GetBalance_set, hx]
    constructor
    · intro x
      simp only [ExecutorT.ExecuteTx, hrec, hS]
      simp only [hsub]
      simp only [hinc]
      simp only [if_pos hv, hadd]
      rw [GetBalance_CommitSnapshot,
          distributeRewards_balance cfg current _ s₃ hfee hPnz hVnz hWnz x,
          hB3 x, hB2 x, hB1 x]
      unfold txFee
      by_cases hx : x = sender <;> simp [hx] <;> ring_nf
    · simp only [ExecutorT.ExecuteTx, hrec, hS]
      simp only [hsub]
      simp only [hinc]
      simp only [if_pos hv, hadd]
      rfl
  · have hv0 : tx.Value = 0 := le_antisymm (not_lt.mp hv) hval
    constructor
    · intro x
      simp only [ExecutorT.ExecuteTx, hrec, hS]
      simp only [hsub]
      simp only [hinc]
      simp only [if_neg hv]
      rw [GetBalance_CommitSnapshot,
          distributeRewards_balance cfg current _ s₂ hfee hPnz hVnz hWnz x,
          hB2 x, hB1 x]
      unfold txFee
      rw [hv0]
      by_cases hx : x = sender <;> simp [hx] <;> ring_nf
    · simp only [ExecutorT.ExecuteTx, hrec, hS]
      simp only [hsub]
      simp only [hinc]
      simp only [if_neg hv]
      rfl

/-- C3 (counterexample): with shares 25/25/25/25 and fee 10, the executed
transfer's six role balance changes sum to −2 (each floored share is 2),
while the claimed burn formula `fee × (100 − ΣShares)/100` gives 0. -/
theorem executeTx_burn_formula_cex :
    (ExecutorT.ExecuteTx (recoverConst exA) cfg25 hdrEx (singleState exA 10 0)
      (some (mkTx 1 0 exB 0 1 10))).2.isOk = true ∧
    balanceDelta (singleState exA 10 0)
        (ExecutorT.ExecuteTx (recoverConst exA) cfg25 hdrEx (singleState exA 10 0)
          (some (mkTx 1 0 exB 0 1 10))).1 exA +
      balanceDelta (singleState exA 10 0)
        (ExecutorT.ExecuteTx (recoverConst exA) cfg25 hdrEx (singleState exA 10 0)
          (some (mkTx 1 0 exB 0 1 10))).1 exB +
      balanceDelta (singleState exA 10 0)
        (ExecutorT.ExecuteTx (recoverConst exA) cfg25 hdrEx (singleState exA 10 0)
          (some (mkTx 1 0 exB 0 1 10))).1 exP +
      balanceDelta (singleState exA 10 0)
        (ExecutorT.ExecuteTx (recoverConst exA) cfg25 hdrEx (singleState exA 10 0)
          (some (mkTx 1 0 exB 0 1 10))).1 exV +
      balanceDelta (singleState exA 10 0)
        (ExecutorT.ExecuteTx (recoverConst exA) cfg25 hdrEx (singleState exA 10 0)
          (some (mkTx 1 0 exB 0 1 10))).1 exW +
      balanceDelta (singleState exA 10 0)
        (ExecutorT.ExecuteTx (recoverConst exA) cfg25 hdrEx (singleState exA 10 0)
          (some (mkTx 1 0 exB 0 1 10))).1 exR ≠
      -(txFee (mkTx 1 0 exB 0 1 10) *
          ((100 : Int) - ((cfg25.ShareTier1 : Int) + cfg25.ShareTier2 +
            cfg25.ShareTier3 + cfg25.SharePool)) / 100) := by
  constructor <;> decide

/-- C3 (witness): the conservation theorem applied to a concrete funded
transfer under the 25/25/25/25 config. -/
theorem executeTx_conservation_witness :
    (ExecutorT.ExecuteTx (recoverConst exA) cfg25 hdrEx (singleState exA 1000 0)
      (some (mkTx 1 0 exB 5 1 10))).2.isOk = true ∧
    balanceDelta (singleState exA 1000 0)
      (ExecutorT.ExecuteTx (recoverConst exA) cfg25 hdrEx (singleState exA 1000 0)
        (some (mkTx 1 0 exB 5 1 10))).1 (mkAddr 9) = 0 := by
  have h := executeTx_conservation (recoverConst exA) cfg25 hdrEx
    (singleState exA 1000 0) (mkTx 1 0 exB 5 1 10) exA
    (by decide) (by decide) (by decide) (by decide) (by decide) (by decide)
    (by decide) (by decide)
  exact ⟨h.1, h.2.2.1 (mkAddr 9) (by decide) (by decide) (by decide) (by decide)
    (by decide) (by decide)⟩

/-! ## C5 — head movement under AddBlock -/

/-- C5 (counterexample): three successful `AddBlock` calls — genesis, a
height-1 child, then a height-1 sibling of the same parent.  The third call
succeeds, yet the head height stays 1 instead of strictly increasing:
`commitBlock` moves the head unconditionally. -/
theorem addBlock_head_height_cex :
    (Blockchain.AddBlock (recoverConst exA) bcRun1 (some blk1)).2 = .ok () ∧
    (Blockchain.AddBlock (recoverConst exA) bcRun2 (some blk1x)).2 = .ok () ∧
    headHeightOf bcRun2 = some 1 ∧
    headHeightOf bcRun3 = some 1 := by
  refine ⟨by decide, by decide, by decide, by decide⟩

/-- C5 (amended): after any successful `AddBlock` the head points to the
block just committed; for a non-genesis block the height equals the indexed
parent's height plus one — but the parent may be any indexed block, so the
new head height need not exceed the previous head's. -/
theorem addBlock_head_commit (recover : Recover) (bc : Blockchain) (b : Block)
    (hok : (Blockchain.AddBlock recover bc (some b)).2 = Except.ok ()) :
    (Blockchain.AddBlock recover bc (some b)).1.head = some b ∧
    (∀ h, b.Header = some h → h.Height ≠ 0 →
      ∃ parent, alookup h.ParentHash bc.blocksByHash = some parent ∧
        h.Height = (parent.Header.map BlockHeader.Height).getD 0 + 1) := by
  rcases hres : Blockchain.AddBlock recover bc (some b) with ⟨bc', res⟩
  have hok' : res = Except.ok () := by
    rw [hres] at hok
    exact hok
  subst hok'
  unfold Blockchain.AddBlock at hres
  simp only [StateDB.Snapshot] at hres
  split at hres
  · exact absurd (congrArg Prod.snd hres) (by simp)
  · rename_i hvb
    split at hres
    · exact absurd (congrArg Prod.snd hres) (by simp)
    · rename_i h hh
      split at hres
      · rename_i hz
        split at hres
        · exact absurd (congrArg Prod.snd hres) (by simp)
        · rename_i hhead
          split at hres
          · exact absurd (congrArg Prod.snd hres) (by simp)
          · split at hres
            · exact absurd (congrArg Prod.snd hres) (by simp)
            · have hbc : bc' = Blockchain.commitBlock _ b :=
                (congrArg Prod.fst hres).symm
              constructor
              · rw [hbc]
                simp [Blockchain.commitBlock]
              · intro h' hh' hnz
                rw [hh] at hh'
                cases hh'
                exact absurd hz hnz
      · rename_i hz
        split at hres
        · exact absurd (congrArg Prod.snd hres) (by simp)
        · rename_i parent hpar
          split at hres
          · exact absurd (congrArg Prod.snd hres) (by simp)
          · rename_i hheight
            split at hres
            · exact absurd (congrArg Prod.snd hres) (by simp)
            · split at hres
              · exact absurd (congrArg Prod.snd hres) (by simp)
              · have hbc : bc' = Blockchain.commitBlock _ b :=
                  (congrArg Prod.fst hres).symm
                constructor
                · rw [hbc]
                  simp [Blockchain.commitBlock]
                · intro h' hh' hnz
                  rw [hh] at hh'
                  cases hh'
                  refine ⟨parent, ?_, not_ne_iff.mp hheight⟩
                  simpa using hpar

/-- C5 (witness): committing a genesis block moves the head to it. -/
theorem addBlock_head_commit_witness :
    (Blockchain.AddBlock (recoverConst exA) (NewBlockchain NewStateDB cfgZero)
      (some blk0)).2 = Except.ok () ∧
    (Blockchain.AddBlock (recoverConst exA) (NewBlockchain NewStateDB cfgZero)
      (some blk0)).1.head = some blk0 :=
  ⟨by decide,
   (addBlock_head_commit (recoverConst exA) (NewBlockchain NewStateDB cfgZero) blk0
     (by decide)).1⟩

end Krypper
